import Mathlib

/-!
Verification of the line-oriented parsing pipeline of the door-app
repository (src/parsing.py).

Strings are modelled as `List Char`.  The two regular expressions
`LINE_DOOR_DR` and `LINE_PANEL` are embedded as deterministic
recursive matchers that reproduce the backtracking behaviour of
Python's `re` module on these particular patterns (the places where
backtracking can occur are analysed in the comments next to each
definition).  Character classes follow the ASCII fragment of Python's
`\d`, `\s`, `\w`; the pipeline only ever receives text lines produced
by `str.splitlines`, which contain no newline character.

Numeric behaviour: the source computes dimensions with IEEE-754
doubles (`float(whole)`, `float(Fraction(num, den))`,
`math.ceil(v * 10**places) / 10**places`).  The model below uses exact
rational arithmetic instead; both agree whenever every intermediate
value is exactly representable as a double (true for all small shop
dimensions).  The double pipeline's abort on out-of-range magnitudes —
an uncaught `OverflowError` from `float(Fraction(..))`, from the
int-to-float conversion of `10**places`, or from `math.ceil` of an
infinite product — is modeled by explicit guards against
`floatOverflowBound`; the remaining divergence (finite-double rounding,
and the one-rounding-step band around the overflow cut) is recorded
with claim C2.
-/

set_option maxRecDepth 16384

abbrev Str := List Char

/-- Characters of a Lean string literal, used to write concrete inputs. -/
def strL (s : String) : Str := s.data

/-- Python `\d` (ASCII): a decimal digit. -/
def isDigitC (c : Char) : Bool := c.isDigit

/-- Python `\s` (ASCII): space, tab, newline, vertical tab, form feed, carriage return. -/
def isSpaceC (c : Char) : Bool :=
  (c == ' ') || (c == '\t') || (c == '\n') || (c == '\x0b') || (c == '\x0c') || (c == '\r')

/-- Python `\w` (ASCII): letters, digits, underscore; used for `\b` word boundaries. -/
def isWordC (c : Char) : Bool := c.isAlphanum || (c == '_')

/-- `str.lower` (ASCII fragment). -/
def lowerS (s : Str) : Str := s.map Char.toLower

/-- Boolean prefix test. -/
def pIsPre : Str → Str → Bool
  | [], _ => true
  | _ :: _, [] => false
  | a :: as, b :: bs => (a == b) && pIsPre as bs

/-- Python's substring containment test (`needle in hay`). -/
def pcontains (n : Str) : Str → Bool
  | [] => pIsPre n []
  | c :: t => pIsPre n (c :: t) || pcontains n t

/-- Python `str.strip()` (ASCII whitespace). -/
def pstrip (s : Str) : Str :=
  ((s.dropWhile isSpaceC).reverse.dropWhile isSpaceC).reverse

/-- Greedy `p+` for a character class `p`: at least one character, maximal run.
Returns the run and the rest.  Because the character class and whatever
follows it are disjoint at every use site, the greedy run never needs to
backtrack. -/
def takeClass1 (p : Char → Bool) (s : Str) : Option (Str × Str) :=
  match s with
  | [] => none
  | c :: rest =>
    if p c then some (c :: rest.takeWhile p, rest.dropWhile p) else none

/-- One literal character, case-insensitively (the patterns carry `re.IGNORECASE`). -/
def litC (c : Char) (s : Str) : Option Str :=
  match s with
  | x :: r => if x.toLower = c.toLower then some r else none
  | [] => none

/-- A literal word, case-insensitively; returns the matched input text
(original case, as Python capture groups do) and the rest. -/
def matchCI : Str → Str → Option (Str × Str)
  | [], s => some ([], s)
  | _ :: _, [] => none
  | p :: ps, c :: cs =>
    if c.toLower = p.toLower then
      match matchCI ps cs with
      | some (txt, r) => some (c :: txt, r)
      | none => none
    else none

/-- `Option` alternative used to mirror regex preference order. -/
def optOr (a b : Option α) : Option α :=
  match a with
  | some x => some x
  | none => b

/-- One exact literal character (for `)`, `(`, `/`, which have no case). -/
def litE (c : Char) (s : Str) : Option Str :=
  match s with
  | x :: r => if x = c then some r else none
  | [] => none

/-- `\s+(\d+/\d+)`: whitespace, then the fraction capture `N/D`. -/
def parseSpFrac (s : Str) : Option (Str × Str) :=
  match takeClass1 isSpaceC s with
  | none => none
  | some (_, r1) =>
    match takeClass1 isDigitC r1 with
    | none => none
    | some (n, r2) =>
      match litE '/' r2 with
      | none => none
      | some r3 =>
        match takeClass1 isDigitC r3 with
        | none => none
        | some (d, r4) => some (n ++ '/' :: d, r4)

/-- `\s+x\s+` (the `x` is case-insensitive). -/
def parseXSep (s : Str) : Option Str :=
  match takeClass1 isSpaceC s with
  | none => none
  | some (_, r1) =>
    match litC 'x' r1 with
    | none => none
    | some r2 =>
      match takeClass1 isSpaceC r2 with
      | none => none
      | some (_, r3) => some r3

/-- `(?:\s+(frac))?\s+x\s+` after the whole part of a dimension: the greedy
optional fraction is tried first; if the fraction (or the `x` separator
after it) fails, the engine retries without the fraction.  (When the
fraction and the separator after it both succeed but the pattern fails
later, dropping the fraction cannot help: the separator would then have
to match `x` where the fraction's first digit stands.) -/
def parseDimTail (s : Str) : Option (Option Str × Str) :=
  optOr
    (match parseSpFrac s with
     | some (f, r4) =>
       match parseXSep r4 with
       | some r5 => some (some f, r5)
       | none => none
     | none => none)
    (match parseXSep s with
     | some r5 => some (none, r5)
     | none => none)

/-- One repetition `\d+\)\d+\s+` of the unit-blob group; returns the matched
text and the rest. -/
def parseRep (s : Str) : Option (Str × Str) :=
  match takeClass1 isDigitC s with
  | none => none
  | some (a, r1) =>
    match litE ')' r1 with
    | none => none
    | some r2 =>
      match takeClass1 isDigitC r2 with
      | none => none
      | some (b, r3) =>
        match takeClass1 isSpaceC r3 with
        | none => none
        | some (sp, r4) => some (a ++ ')' :: (b ++ sp), r4)

def len_dropWhile_le (p : Char → Bool) (l : Str) :
    (l.dropWhile p).length ≤ l.length := by
  induction l with
  | nil => simp
  | cons x xs ih =>
    by_cases hx : p x
    · simp only [List.dropWhile, hx]
      exact Nat.le_succ_of_le ih
    · simp [List.dropWhile, hx]

def takeClass1_length {p : Char → Bool} {s d r : Str}
    (h : takeClass1 p s = some (d, r)) : r.length < s.length := by
  cases s with
  | nil => simp [takeClass1] at h
  | cons c t =>
    simp only [takeClass1] at h
    by_cases hc : p c
    · rw [if_pos hc] at h
      simp only [Option.some.injEq, Prod.mk.injEq] at h
      have h2 : r = t.dropWhile p := h.2.symm
      have := len_dropWhile_le p t
      subst h2
      simp only [List.length_cons]
      omega
    · rw [if_neg hc] at h
      exact absurd h (by simp)

def litE_length {c : Char} {s r : Str}
    (h : litE c s = some r) : r.length < s.length := by
  cases s with
  | nil => simp [litE] at h
  | cons x t =>
    simp only [litE] at h
    by_cases hx : x = c
    · rw [if_pos hx] at h
      simp only [Option.some.injEq] at h
      subst h
      simp
    · rw [if_neg hx] at h
      exact absurd h (by simp)

def parseRep_length {s tok r : Str}
    (h : parseRep s = some (tok, r)) : r.length < s.length := by
  unfold parseRep at h
  cases h1 : takeClass1 isDigitC s with
  | none => rw [h1] at h; exact absurd h (by simp)
  | some v1 =>
    obtain ⟨a, r1⟩ := v1
    rw [h1] at h
    dsimp only at h
    cases h2 : litE ')' r1 with
    | none => rw [h2] at h; exact absurd h (by simp)
    | some r2 =>
      rw [h2] at h
      dsimp only at h
      cases h3 : takeClass1 isDigitC r2 with
      | none => rw [h3] at h; exact absurd h (by simp)
      | some v3 =>
        obtain ⟨b, r3⟩ := v3
        rw [h3] at h
        dsimp only at h
        cases h4 : takeClass1 isSpaceC r3 with
        | none => rw [h4] at h; exact absurd h (by simp)
        | some v4 =>
          obtain ⟨sp, r4⟩ := v4
          rw [h4] at h
          simp only [Option.some.injEq, Prod.mk.injEq] at h
          obtain ⟨-, h5⟩ := h
          subst h5
          have l1 := takeClass1_length h1
          have l2 := litE_length h2
          have l3 := takeClass1_length h3
          have l4 := takeClass1_length h4
          omega

/-- The greedy `(\d+\)\d+\s+)+` loop: as many repetitions as possible,
returning the concatenated matched text and the rest.  If at least one
repetition matched but the continuation of the pattern then fails, the
whole pattern fails: on any shorter number of repetitions the
continuation would have to match `\s+` against the `)` that follows the
first digit run of the next repetition. -/
def parseRepsF : ℕ → Str → Str × Str
  | 0, s => ([], s)
  | fuel + 1, s =>
    match parseRep s with
    | none => ([], s)
    | some (tok, r) =>
      let p := parseRepsF fuel r
      (tok ++ p.1, p.2)

def parseReps (s : Str) : Str × Str := parseRepsF s.length s

/-- The capture groups shared by both grammars: optional unit blob,
quantity, width (whole and optional fraction) and the whole part of the
height. -/
structure CommonG where
  unit_blob : Option Str
  qty : Str
  w_whole : Str
  w_frac : Option Str
  h_whole : Str
deriving DecidableEq, Repr

/-- The common leading shape
`^(unit_blob)?(qty)\s+(w_whole)(?:\s+(w_frac))?\s+x\s+(h_whole)` of the
two grammars; returns the groups and the rest of the line after the
height's whole part. -/
def parseCommon (s : Str) : Option (CommonG × Str) :=
  match parseReps s with
  | (b, r0) =>
    match takeClass1 isDigitC r0 with
    | none => none
    | some (q, r1) =>
      match takeClass1 isSpaceC r1 with
      | none => none
      | some (_, r2) =>
        match takeClass1 isDigitC r2 with
        | none => none
        | some (w, r3) =>
          match parseDimTail r3 with
          | none => none
          | some (wf, r5) =>
            match takeClass1 isDigitC r5 with
            | none => none
            | some (hw, r6) =>
              some (⟨if b = [] then none else some b, q, w, wf, hw⟩, r6)

/-- `Door|Drawer Front`, case-insensitively, in the pattern's preference
order; the capture is the input text in its original case. -/
def parseTypeKw (s : Str) : Option (Str × Str) :=
  optOr (matchCI (strL "Door") s) (matchCI (strL "Drawer Front") s)

/-- `(?:\s+\((?P<style>[^)]+)\))?` at the end of the door pattern: the
optional parenthesised style hint.  `[^)]+` takes everything up to the
first closing parenthesis, which must exist and enclose at least one
character; otherwise the option is skipped and the style group is
absent. -/
def parseStyleOpt (s : Str) : Option Str :=
  match takeClass1 isSpaceC s with
  | none => none
  | some (_, r1) =>
    match litE '(' r1 with
    | none => none
    | some r2 =>
      match litE ')' (r2.dropWhile (fun c => !(c == ')'))) with
      | none => none
      | some _ =>
        match r2.takeWhile (fun c => !(c == ')')) with
        | [] => none
        | inner => some inner

/-- `(?:\s+(h_frac))?\s+(type)` for the door grammar: optional height
fraction, whitespace, then the type keyword.  As with `parseDimTail`,
if the fraction path fails anywhere the engine retries without the
fraction (which can only succeed when the fraction itself did not
parse, since otherwise the keyword would have to start at a digit). -/
def parseHTailDoor (s : Str) : Option (Option Str × Str × Str) :=
  optOr
    (match parseSpFrac s with
     | some (f, r4) =>
       match takeClass1 isSpaceC r4 with
       | some (_, r5) =>
         match parseTypeKw r5 with
         | some (t, r6) => some (some f, t, r6)
         | none => none
       | none => none
     | none => none)
    (match takeClass1 isSpaceC s with
     | some (_, r5) =>
       match parseTypeKw r5 with
       | some (t, r6) => some (none, t, r6)
       | none => none
     | none => none)

/-- All capture groups of `LINE_DOOR_DR`. -/
structure DoorG where
  unit_blob : Option Str
  qty : Str
  w_whole : Str
  w_frac : Option Str
  h_whole : Str
  h_frac : Option Str
  type : Str
  style : Option Str
deriving DecidableEq, Repr

/-- `LINE_DOOR_DR.search(line)`: since the pattern is anchored with `^`
and the flags do not include `MULTILINE`, `search` can only match at the
start of the line. -/
def LINE_DOOR_DR_search (s : Str) : Option DoorG :=
  match parseCommon s with
  | none => none
  | some (c, r6) =>
    match parseHTailDoor r6 with
    | none => none
    | some (hf, t, r7) =>
      some ⟨c.unit_blob, c.qty, c.w_whole, c.w_frac, c.h_whole, hf, t, parseStyleOpt r7⟩

/-- Does a case-insensitive `Panel` with a `\b` word boundary on each side
start here?  (`\bPanel\b` of `LINE_PANEL`.) -/
def panelKwAt (s : Str) : Bool :=
  match matchCI (strL "Panel") s with
  | some (_, r) =>
    match r with
    | [] => true
    | c :: _ => !(isWordC c)
  | none => false

/-- Scan for a boundary-delimited `Panel` anywhere in the text; `prevW`
records whether the previous character was a word character. -/
def hasPanelAux (prevW : Bool) : Str → Bool
  | [] => (!prevW) && panelKwAt []
  | c :: t => ((!prevW) && panelKwAt (c :: t)) || hasPanelAux (isWordC c) t

/-- `.*\bPanel\b.*` on the text following the height: some occurrence of
`Panel` (case-insensitive) with word boundaries.  The character before
this text in the line is whitespace, hence not a word character, so the
scan starts with `prevW = false`. -/
def hasPanelWordCI (s : Str) : Bool := hasPanelAux false s

/-- The panel trailing text is accepted when it contains a
boundary-delimited `Panel` and no newline (`.` does not match a newline;
lines produced by `splitlines` never contain one, and the model treats a
newline in the tail as a failure). -/
def panelTextOk (s : Str) : Bool := !(s.contains '\n') && hasPanelWordCI s

/-- `(?:\s+(h_frac))?\s+(?P<panel>.*\bPanel\b.*)$` for the panel grammar.
The panel capture is all text after the (maximal) whitespace run: the
whitespace cannot usefully donate characters to the leading `.*`, since
an occurrence of `Panel` never overlaps whitespace.  If the fraction
path fails, the no-fraction path re-checks the tail that then starts at
the fraction's digits; `Panel` never overlaps digits, `/` or
whitespace, so the check is equivalent either way. -/
def parseHTailPanel (s : Str) : Option (Option Str × Str) :=
  optOr
    (match parseSpFrac s with
     | some (f, r4) =>
       match takeClass1 isSpaceC r4 with
       | some (_, r5) => if panelTextOk r5 then some (some f, r5) else none
       | none => none
     | none => none)
    (match takeClass1 isSpaceC s with
     | some (_, r5) => if panelTextOk r5 then some (none, r5) else none
     | none => none)

/-- All capture groups of `LINE_PANEL`. -/
structure PanelG where
  unit_blob : Option Str
  qty : Str
  w_whole : Str
  w_frac : Option Str
  h_whole : Str
  h_frac : Option Str
  panel : Str
deriving DecidableEq, Repr

/-- `LINE_PANEL.search(line)` (anchored at the start like the door
pattern, and at the end by `$`, which the panel capture reaches by
construction). -/
def LINE_PANEL_search (s : Str) : Option PanelG :=
  match parseCommon s with
  | none => none
  | some (c, r6) =>
    match parseHTailPanel r6 with
    | none => none
    | some (hf, p) =>
      some ⟨c.unit_blob, c.qty, c.w_whole, c.w_frac, c.h_whole, hf, p⟩

/-- Value of a digit string (the captures are decimal-digit runs). -/
def digitsToNat (s : Str) : ℕ :=
  s.foldl (fun a c => a * 10 + (c.toNat - 48)) 0

/-- Python `int(text)` as used on the quantity capture: succeeds exactly on a
non-empty run of decimal digits (the model omits the sign/whitespace forms
`int` also accepts, which no capture of these grammars can produce), yielding
a non-negative integer. -/
def pyInt (s : Str) : Option ℤ :=
  if s ≠ [] ∧ s.all isDigitC then some (digitsToNat s) else none

/-- Python exceptions the pipeline can raise. -/
inductive PyExn where
  | zeroDivisionError
  | valueError
  | overflowError
deriving DecidableEq, Repr

/-- `2^1024`, the first power-of-two magnitude beyond every finite double:
at (roughly) this exact-value cut CPython's float pipeline aborts with
`OverflowError` — `float(Fraction(num, den))` on a quotient that rounds
beyond the largest double, the int-to-float conversion of `10**places`
inside `v * (10**places)`, and `math.ceil` of an infinite product
(`float(whole)` of an oversized digit string is `inf` without raising, and
the error then surfaces at `math.ceil`).  The double code rounds before
comparing, so its cut lies within one rounding step of this exact cut;
inputs inside that band belong to the float-rounding divergence recorded
at claim C2. -/
def floatOverflowBound : ℕ := 2 ^ 1024

/-- `ceil_to_decimals(v, places) = math.ceil(v * 10**places) / 10**places`:
the exact-value meaning of the source expression for in-float-range `v`.
The `OverflowError` aborts of the double pipeline (infinite `v`, or an
oversized `10**places`) are modeled by the `floatOverflowBound` guards in
`frac_to_up_decimal` and `frac_to_up_scaled`, its only call sites; the
rounding divergence of finite doubles is recorded at claim C2. -/
def ceil_to_decimals (v : ℚ) (places : ℕ) : ℚ :=
  (Int.ceil (v * 10 ^ places) : ℚ) / 10 ^ places

/-- `frac_to_up_decimal(whole, frac, places)`: whole part plus optional
fraction `N/D`, rounded up at `places` decimal places.  Error paths, in the
source's evaluation order: `Fraction(int(num), int(den))` raises
`ZeroDivisionError` when the captured denominator is `0`;
`float(Fraction(num, den))` raises `OverflowError` when the quotient exceeds
the double range; and `math.ceil(v * 10**places)` raises `OverflowError`
when `10**places` or the scaled value does (an oversized `whole` makes
`float(whole)` infinite without raising, and the abort surfaces here). -/
def frac_to_up_decimal (whole : Str) (frac : Option Str) (places : ℕ) :
    Except PyExn ℚ :=
  match frac with
  | none =>
    if floatOverflowBound ≤ digitsToNat whole * 10 ^ places ∨
       floatOverflowBound ≤ 10 ^ places then .error .overflowError
    else .ok (ceil_to_decimals ((digitsToNat whole : ℚ)) places)
  | some f =>
    let num := digitsToNat (f.takeWhile (fun c => !(c == '/')))
    let den := digitsToNat ((f.dropWhile (fun c => !(c == '/'))).drop 1)
    if den = 0 then .error .zeroDivisionError
    else if floatOverflowBound * den ≤ num then .error .overflowError
    else if floatOverflowBound * den ≤ (digitsToNat whole * den + num) * 10 ^ places ∨
            floatOverflowBound ≤ 10 ^ places then .error .overflowError
    else .ok (ceil_to_decimals ((digitsToNat whole : ℚ) + (num : ℚ) / (den : ℚ)) places)

/-- The scaled-integer form of `ceil_to_decimals` on `whole + num/den`:
the numerator of the rounded-up value over `10^places`, computed with
natural-number ceiling division so that it evaluates inside the kernel.
`frac_to_up_decimal_eq_scaled` below proves it equal to the rational
translation of the source. -/
def ceil_to_decimals_scaled (whole num den places : ℕ) : ℕ :=
  whole * 10 ^ places + (num * 10 ^ places + (den - 1)) / den

/-- `frac_to_up_decimal`, returning the scaled numerator (the value of the
source function is this over `10^places`; see
`frac_to_up_decimal_eq_scaled`), with the same error paths: the overflow
guards compare the exact magnitudes against `floatOverflowBound` in
natural-number arithmetic (`num/den ≥ B` as `B*den ≤ num`, and
`(whole + num/den) * 10^places ≥ B` as `B*den ≤ (whole*den + num) *
10^places`). -/
def frac_to_up_scaled (whole : Str) (frac : Option Str) (places : ℕ) :
    Except PyExn ℕ :=
  match frac with
  | none =>
    if floatOverflowBound ≤ digitsToNat whole * 10 ^ places ∨
       floatOverflowBound ≤ 10 ^ places then .error .overflowError
    else .ok (digitsToNat whole * 10 ^ places)
  | some f =>
    let num := digitsToNat (f.takeWhile (fun c => !(c == '/')))
    let den := digitsToNat ((f.dropWhile (fun c => !(c == '/'))).drop 1)
    if den = 0 then .error .zeroDivisionError
    else if floatOverflowBound * den ≤ num then .error .overflowError
    else if floatOverflowBound * den ≤ (digitsToNat whole * den + num) * 10 ^ places ∨
            floatOverflowBound ≤ 10 ^ places then .error .overflowError
    else .ok (ceil_to_decimals_scaled (digitsToNat whole) num den places)

/-- Decimal digits of a natural number. -/
def natDigitsF : ℕ → ℕ → Str
  | 0, _ => []
  | fuel + 1, n =>
    if n < 10 then [Char.ofNat (48 + n)]
    else natDigitsF fuel (n / 10) ++ [Char.ofNat (48 + n % 10)]

def natDigits (n : ℕ) : Str := natDigitsF (n + 1) n

/-- Pad a digit string on the left with zeros to width `k`. -/
def padZeros (k : ℕ) (s : Str) : Str :=
  List.replicate (k - s.length) '0' ++ s

/-- The f-string `f"{v:.{places}f}"` for the non-negative exact multiples of
`10^-places` produced by `ceil_to_decimals`. -/
def renderFixed (v : ℚ) (places : ℕ) : Str :=
  let n : ℕ := (Int.floor (v * (10 : ℚ) ^ places)).toNat
  if places = 0 then natDigits n
  else natDigits (n / 10 ^ places) ++ '.' :: padZeros places (natDigits (n % 10 ^ places))

/-- `renderFixed` on the scaled numerator `n` (the formatted value is
`n / 10^places`; see `renderFixed_eq_scaled`). -/
def renderScaled (n : ℕ) (places : ℕ) : Str :=
  if places = 0 then natDigits n
  else natDigits (n / 10 ^ places) ++ '.' :: padZeros places (natDigits (n % 10 ^ places))

/-- `UNIT_TOKEN_RE = (?P<qty>\d+)\)(?P<unit>\d+)`: one unit token at the
current position. -/
def parseUnitTok (s : Str) : Option (Str × Str × Str) :=
  match takeClass1 isDigitC s with
  | none => none
  | some (q, r1) =>
    match litE ')' r1 with
    | none => none
    | some r2 =>
      match takeClass1 isDigitC r2 with
      | none => none
      | some (u, r3) => some (q, u, r3)

def parseUnitTok_length {s q u r : Str}
    (h : parseUnitTok s = some (q, u, r)) : r.length < s.length := by
  unfold parseUnitTok at h
  cases h1 : takeClass1 isDigitC s with
  | none => rw [h1] at h; exact absurd h (by simp)
  | some v1 =>
    obtain ⟨a, r1⟩ := v1
    rw [h1] at h
    dsimp only at h
    cases h2 : litE ')' r1 with
    | none => rw [h2] at h; exact absurd h (by simp)
    | some r2 =>
      rw [h2] at h
      dsimp only at h
      cases h3 : takeClass1 isDigitC r2 with
      | none => rw [h3] at h; exact absurd h (by simp)
      | some v3 =>
        obtain ⟨b, r3⟩ := v3
        rw [h3] at h
        simp only [Option.some.injEq, Prod.mk.injEq] at h
        obtain ⟨-, -, h4⟩ := h
        subst h4
        have l1 := takeClass1_length h1
        have l2 := litE_length h2
        have l3 := takeClass1_length h3
        omega

/-- `UNIT_TOKEN_RE.finditer(text)`: non-overlapping matches, scanned left to
right (on failure the scan advances one character; after a match it resumes
right after the match). -/
def findUnitTokensF : ℕ → Str → List (Str × Str)
  | 0, _ => []
  | fuel + 1, s =>
    match parseUnitTok s with
    | some (q, u, r) => (q, u) :: findUnitTokensF fuel r
    | none =>
      match s with
      | [] => []
      | _ :: t => findUnitTokensF fuel t

def findUnitTokens (s : Str) : List (Str × Str) := findUnitTokensF s.length s

/-- The rendering `f"{qty}x#{unit}"` of one unit token. -/
def renderUnitTok (t : Str × Str) : Str := t.1 ++ 'x' :: '#' :: t.2

/-- `unit_blob_to_note(blob, joiner)`: empty when the blob is empty
(`if not blob`), otherwise the rendered tokens of the stripped blob joined
by the joiner. -/
def unit_blob_to_note (blob : Str) (joiner : Str) : Str :=
  if blob = [] then []
  else List.intercalate joiner ((findUnitTokens (pstrip blob)).map renderUnitTok)

/-- `normalize_type(t)`: lower-case text starting with `drawer front`
normalises to `Drawer Front`, everything else to `Door`. -/
def normalize_type (t : Str) : Str :=
  let tl := lowerS t
  if pIsPre (strL "drawer front") tl then strL "Drawer Front" else strL "Door"

/-- `style_label(style_raw)`: lower-cased hint containing `sfp` gives `SFP`;
containing `flatdr` or `flat` gives `Flat`; otherwise the empty label. -/
def style_label (style_raw : Option Str) : Str :=
  let s := lowerS (style_raw.getD [])
  if pcontains (strL "sfp") s then strL "SFP"
  else if pcontains (strL "flatdr") s || pcontains (strL "flat") s then strL "Flat"
  else []

/-- The panel sub-kind cascade of `parse_pdf` (source lines 94-105) on the
lower-cased panel capture. -/
def panelSubKind (panel_text : Str) : Str :=
  let pl := lowerS panel_text
  if pcontains (strL "side panel") pl && pcontains (strL "left") pl then
    strL "Side Panel Left"
  else if pcontains (strL "side panel") pl && pcontains (strL "right") pl then
    strL "Side Panel Right"
  else if pcontains (strL "side panel") pl then strL "Side Panel"
  else if pcontains (strL "flat panel") pl then strL "Flat Panel"
  else strL "Panel"

/-- Modelled from the spec: the independent-keyword-check panel sub-kind
derivation of §4.3, written from the spec's words, for comparison with the
source's `panelSubKind`. -/
def specPanelSubKind (trailing : Str) : Str :=
  let pl := lowerS trailing
  if pcontains (strL "side panel") pl = true ∧ pcontains (strL "left") pl = true then
    strL "Side Panel Left"
  else if pcontains (strL "side panel") pl = true ∧ pcontains (strL "right") pl = true then
    strL "Side Panel Right"
  else if pcontains (strL "side panel") pl = true then strL "Side Panel"
  else if pcontains (strL "flat panel") pl = true then strL "Flat Panel"
  else strL "Panel"

/-- One output record of the pipeline (the dict yielded by `parse_pdf`;
`rtype` is the dict key `"type"`). -/
structure ItemRecord where
  rtype : Str
  style : Str
  qty : ℤ
  width_in : Str
  height_in : Str
  note : Str
  source_page : ℕ
  hinge : Option Str
deriving DecidableEq, Repr

/-- The body of `parse_pdf`'s line loop: strip, pagination-marker skip,
door/drawer grammar, then panel grammar.  `.ok none` is a line that yields
no record; `.error` is an uncaught Python exception, which aborts the whole
parse (there is no handler in the source). -/
def processLineE (raw : Str) (page : ℕ) (places : ℕ) (joiner : Str) :
    Except PyExn (Option ItemRecord) :=
  let line := pstrip raw
  if pcontains (strL "Continued to Next Page") line ||
     pcontains (strL "Continued from Last Page") line then .ok none
  else
    match LINE_DOOR_DR_search line with
    | some g =>
      let blob := g.unit_blob.getD []
      match pyInt g.qty with
      | none => .error .valueError
      | some qty =>
        match frac_to_up_scaled g.w_whole g.w_frac places with
        | .error e => .error e
        | .ok width =>
          match frac_to_up_scaled g.h_whole g.h_frac places with
          | .error e => .error e
          | .ok height =>
            let t_norm := normalize_type g.type
            let lbl := style_label g.style
            let unit_note := unit_blob_to_note blob joiner
            let note := if unit_note = [] then t_norm else t_norm ++ joiner ++ unit_note
            .ok (some ⟨t_norm, lbl, qty, renderScaled width places,
                       renderScaled height places, note, page, none⟩)
    | none =>
      match LINE_PANEL_search line with
      | some g =>
        let blob := g.unit_blob.getD []
        match pyInt g.qty with
        | none => .error .valueError
        | some qty =>
          match frac_to_up_scaled g.w_whole g.w_frac places with
          | .error e => .error e
          | .ok width =>
            match frac_to_up_scaled g.h_whole g.h_frac places with
            | .error e => .error e
            | .ok height =>
              let tok := panelSubKind g.panel
              let unit_note := unit_blob_to_note blob joiner
              let note := List.intercalate joiner ([tok, unit_note].filter (fun t => !t.isEmpty))
              .ok (some ⟨strL "Panel", strL "Panel", qty, renderScaled width places,
                         renderScaled height places,
                         if note = [] then strL "Panel" else note, page, none⟩)
      | none => .ok none

/-- The lines of one page, in order; the first uncaught exception aborts. -/
def parseLinesE (lines : List Str) (page places : ℕ) (joiner : Str) :
    Except PyExn (List ItemRecord) :=
  match lines with
  | [] => .ok []
  | l :: ls =>
    match processLineE l page places joiner with
    | .error e => .error e
    | .ok r =>
      match parseLinesE ls page places joiner with
      | .error e => .error e
      | .ok rest =>
        .ok (match r with
             | some r0 => r0 :: rest
             | none => rest)

/-- Pages, numbered from 1 as by `enumerate(pdf.pages, start=1)`. -/
def parsePagesE (pages : List (List Str)) (page places : ℕ) (joiner : Str) :
    Except PyExn (List ItemRecord) :=
  match pages with
  | [] => .ok []
  | pg :: rest =>
    match parseLinesE pg page places joiner with
    | .error e => .error e
    | .ok rs =>
      match parsePagesE rest (page + 1) places joiner with
      | .error e => .error e
      | .ok more => .ok (rs ++ more)

/-- `parse_pdf`, taking the per-page text lines that the external
`pdfplumber` collaborator extracts (each page's `extract_text()` split by
`splitlines`), as the records the caller obtains by exhausting the
generator (`list(parse_pdf(...))` in `app.py`): either the full record
list, or the first uncaught exception. -/
def parse_pdf (pages : List (List Str)) (places : ℕ) (joiner : Str) :
    Except PyExn (List ItemRecord) :=
  parsePagesE pages 1 places joiner

theorem pIsPre_iff {n h : Str} : pIsPre n h = true ↔ ∃ t, h = n ++ t := by
  induction n generalizing h with
  | nil => simp [pIsPre]
  | cons a as ih =>
    cases h with
    | nil => simp [pIsPre]
    | cons b bs =>
      simp only [pIsPre, Bool.and_eq_true, beq_iff_eq]
      constructor
      · rintro ⟨rfl, hp⟩
        obtain ⟨t, rfl⟩ := ih.mp hp
        exact ⟨t, rfl⟩
      · rintro ⟨t, ht⟩
        simp only [List.cons_append] at ht
        injection ht with h1 h2
        exact ⟨h1.symm, ih.mpr ⟨t, h2⟩⟩

theorem pcontains_iff {n h : Str} : pcontains n h = true ↔ ∃ a b, h = a ++ n ++ b := by
  induction h with
  | nil =>
    simp only [pcontains]
    rw [pIsPre_iff]
    constructor
    · rintro ⟨t, ht⟩
      exact ⟨[], t, by simpa using ht⟩
    · rintro ⟨a, b, hab⟩
      have := hab.symm
      simp only [List.append_assoc, List.append_eq_nil] at this
      exact ⟨b, by simp [this.1, this.2.1, this.2.2]⟩
  | cons c t ih =>
    simp only [pcontains, Bool.or_eq_true]
    rw [pIsPre_iff, ih]
    constructor
    · rintro (⟨u, hu⟩ | ⟨a, b, hab⟩)
      · exact ⟨[], u, by simpa using hu⟩
      · exact ⟨c :: a, b, by simp [hab]⟩
    · rintro ⟨a, b, hab⟩
      cases a with
      | nil => exact Or.inl ⟨b, by simpa using hab⟩
      | cons x xs =>
        simp only [List.cons_append] at hab
        injection hab with h1 h2
        exact Or.inr ⟨xs, b, h2⟩

theorem pcontains_dropWhile {p : Char → Bool} {c : Char} {cs h : Str}
    (hc : p c = false) (hin : pcontains (c :: cs) h = true) :
    pcontains (c :: cs) (h.dropWhile p) = true := by
  induction h with
  | nil => simpa [pcontains, pIsPre] using hin
  | cons x t ih =>
    by_cases hx : p x
    · simp only [List.dropWhile, hx]
      apply ih
      simp only [pcontains, Bool.or_eq_true] at hin
      rcases hin with hpre | htail
      · simp only [pIsPre, Bool.and_eq_true, beq_iff_eq] at hpre
        obtain ⟨rfl, -⟩ := hpre
        rw [hx] at hc
        exact absurd hc (by simp)
      · exact htail
    · simpa only [List.dropWhile, hx, Bool.false_eq_true, if_false] using hin

theorem pcontains_reverse {n h : Str} :
    pcontains n.reverse h.reverse = true ↔ pcontains n h = true := by
  rw [pcontains_iff, pcontains_iff]
  constructor
  · rintro ⟨a, b, hab⟩
    refine ⟨b.reverse, a.reverse, ?_⟩
    have h2 := congrArg List.reverse hab
    simpa [List.reverse_append, List.append_assoc] using h2
  · rintro ⟨a, b, rfl⟩
    exact ⟨b.reverse, a.reverse, by simp [List.reverse_append, List.append_assoc]⟩

theorem pcontains_pstrip {c c' : Char} {cs cs' raw : Str}
    (hrev : (c :: cs).reverse = c' :: cs')
    (hc : isSpaceC c = false) (hc' : isSpaceC c' = false)
    (hin : pcontains (c :: cs) raw = true) :
    pcontains (c :: cs) (pstrip raw) = true := by
  unfold pstrip
  have h1 := pcontains_dropWhile hc hin
  have h2 : pcontains ((c :: cs).reverse) ((raw.dropWhile isSpaceC).reverse) = true :=
    pcontains_reverse.mpr h1
  rw [hrev] at h2
  have h3 := pcontains_dropWhile hc' h2
  rw [← hrev] at h3
  apply pcontains_reverse.mp
  rw [List.reverse_reverse]
  exact h3

theorem takeClass1_spec {p : Char → Bool} {s d r : Str}
    (h : takeClass1 p s = some (d, r)) :
    d ≠ [] ∧ d.all p = true ∧ s = d ++ r := by
  cases s with
  | nil => simp [takeClass1] at h
  | cons c t =>
    simp only [takeClass1] at h
    by_cases hc : p c
    · rw [if_pos hc] at h
      simp only [Option.some.injEq, Prod.mk.injEq] at h
      obtain ⟨h1, h2⟩ := h
      subst h1
      subst h2
      refine ⟨by simp, ?_, ?_⟩
      · simp only [List.all_cons, hc, Bool.true_and]
        exact List.all_takeWhile
      · simp [List.takeWhile_append_dropWhile]
    · rw [if_neg hc] at h
      exact absurd h (by simp)

theorem parseCommon_qty {s : Str} {g : CommonG} {r : Str}
    (h : parseCommon s = some (g, r)) :
    g.qty ≠ [] ∧ g.qty.all isDigitC = true := by
  unfold parseCommon at h
  rcases hps : parseReps s with ⟨b, r0⟩
  rw [hps] at h
  dsimp only at h
  cases h1 : takeClass1 isDigitC r0 with
  | none => rw [h1] at h; exact absurd h (by simp)
  | some v1 =>
    obtain ⟨q, r1⟩ := v1
    rw [h1] at h
    dsimp only at h
    cases h2 : takeClass1 isSpaceC r1 with
    | none => rw [h2] at h; exact absurd h (by simp)
    | some v2 =>
      obtain ⟨sp, r2⟩ := v2
      rw [h2] at h
      dsimp only at h
      cases h3 : takeClass1 isDigitC r2 with
      | none => rw [h3] at h; exact absurd h (by simp)
      | some v3 =>
        obtain ⟨w, r3⟩ := v3
        rw [h3] at h
        dsimp only at h
        cases h4 : parseDimTail r3 with
        | none => rw [h4] at h; exact absurd h (by simp)
        | some v4 =>
          obtain ⟨wf, r5⟩ := v4
          rw [h4] at h
          dsimp only at h
          cases h5 : takeClass1 isDigitC r5 with
          | none => rw [h5] at h; exact absurd h (by simp)
          | some v5 =>
            obtain ⟨hw, r6⟩ := v5
            rw [h5] at h
            simp only [Option.some.injEq, Prod.mk.injEq] at h
            obtain ⟨hg, -⟩ := h
            subst hg
            have := takeClass1_spec h1
            exact ⟨this.1, this.2.1⟩

theorem door_qty {s : Str} {g : DoorG}
    (h : LINE_DOOR_DR_search s = some g) :
    g.qty ≠ [] ∧ g.qty.all isDigitC = true := by
  unfold LINE_DOOR_DR_search at h
  cases h1 : parseCommon s with
  | none => rw [h1] at h; exact absurd h (by simp)
  | some v1 =>
    obtain ⟨c, r6⟩ := v1
    rw [h1] at h
    dsimp only at h
    cases h2 : parseHTailDoor r6 with
    | none => rw [h2] at h; exact absurd h (by simp)
    | some v2 =>
      obtain ⟨hf, t, r7⟩ := v2
      rw [h2] at h
      simp only [Option.some.injEq] at h
      subst h
      exact parseCommon_qty h1

theorem panel_qty {s : Str} {g : PanelG}
    (h : LINE_PANEL_search s = some g) :
    g.qty ≠ [] ∧ g.qty.all isDigitC = true := by
  unfold LINE_PANEL_search at h
  cases h1 : parseCommon s with
  | none => rw [h1] at h; exact absurd h (by simp)
  | some v1 =>
    obtain ⟨c, r6⟩ := v1
    rw [h1] at h
    dsimp only at h
    cases h2 : parseHTailPanel r6 with
    | none => rw [h2] at h; exact absurd h (by simp)
    | some v2 =>
      obtain ⟨hf, pt⟩ := v2
      rw [h2] at h
      simp only [Option.some.injEq] at h
      subst h
      exact parseCommon_qty h1

theorem pyInt_digits {q : Str} (h1 : q ≠ []) (h2 : q.all isDigitC = true) :
    pyInt q = some ((digitsToNat q : ℤ)) := by
  simp [pyInt, h1, h2]

theorem nat_ceilDiv_eq_ceil {a b : ℕ} (hb : b ≠ 0) :
    (((a + (b - 1)) / b : ℕ) : ℤ) = Int.ceil ((a : ℚ) / (b : ℚ)) := by
  have hb0 : 0 < b := Nat.pos_of_ne_zero hb
  have hbq : (0 : ℚ) < (b : ℚ) := by exact_mod_cast hb0
  have h1 := Nat.div_add_mod (a + (b - 1)) b
  have h2 := Nat.mod_lt (a + (b - 1)) hb0
  have hub : a ≤ b * ((a + (b - 1)) / b) := by omega
  have hlb : b * ((a + (b - 1)) / b) < a + b := by omega
  have hubz : (a : ℤ) ≤ (b : ℤ) * (((a + (b - 1)) / b : ℕ) : ℤ) := by exact_mod_cast hub
  have hlbz : (b : ℤ) * (((a + (b - 1)) / b : ℕ) : ℤ) < (a : ℤ) + (b : ℤ) := by
    exact_mod_cast hlb
  symm
  rw [Int.ceil_eq_iff]
  constructor
  · rw [lt_div_iff₀ hbq]
    have h3 : ((((a + (b - 1)) / b : ℕ) : ℤ) - 1) * (b : ℤ) < (a : ℤ) := by
      nlinarith [hlbz]
    exact_mod_cast h3
  · rw [div_le_iff₀ hbq]
    have h4 : (a : ℤ) ≤ (((a + (b - 1)) / b : ℕ) : ℤ) * (b : ℤ) := by
      nlinarith [hubz]
    exact_mod_cast h4

theorem ceil_to_decimals_nat (w places : ℕ) :
    ceil_to_decimals (w : ℚ) places = ((w * 10 ^ places : ℕ) : ℚ) / 10 ^ places := by
  unfold ceil_to_decimals
  congr 1
  rw [show ((w : ℚ)) * 10 ^ places = ((w * 10 ^ places : ℕ) : ℚ) by push_cast; ring]
  rw [Int.ceil_natCast]
  push_cast
  ring

theorem ceil_to_decimals_frac (w num den places : ℕ) (h0 : den ≠ 0) :
    ceil_to_decimals ((w : ℚ) + (num : ℚ) / (den : ℚ)) places =
      ((ceil_to_decimals_scaled w num den places : ℕ) : ℚ) / 10 ^ places := by
  unfold ceil_to_decimals ceil_to_decimals_scaled
  congr 1
  have hd : (den : ℚ) ≠ 0 := by exact_mod_cast h0
  have h1 : ((w : ℚ) + (num : ℚ) / (den : ℚ)) * 10 ^ places =
      ((num * 10 ^ places : ℕ) : ℚ) / (den : ℚ) + ((w * 10 ^ places : ℕ) : ℚ) := by
    field_simp
    ring
  rw [h1]
  rw [show ((w * 10 ^ places : ℕ) : ℚ) = (((w * 10 ^ places : ℕ) : ℤ) : ℚ) by push_cast; ring]
  rw [Int.ceil_add_int]
  rw [← nat_ceilDiv_eq_ceil h0]
  simp only [Int.cast_add, Int.cast_natCast, Nat.cast_add]
  ring

/-- The driver's scaled-integer dimension computation agrees with the
source-translated rational `frac_to_up_decimal`: the rational value is the
scaled numerator over `10^places`, and the error cases coincide. -/
theorem frac_to_up_decimal_eq_scaled (whole : Str) (frac : Option Str) (places : ℕ) :
    frac_to_up_decimal whole frac places =
      (frac_to_up_scaled whole frac places).map (fun n => (n : ℚ) / 10 ^ places) := by
  cases frac with
  | none =>
    simp only [frac_to_up_decimal, frac_to_up_scaled]
    by_cases hovf : floatOverflowBound ≤ digitsToNat whole * 10 ^ places ∨
        floatOverflowBound ≤ 10 ^ places
    · rw [if_pos hovf, if_pos hovf]
      rfl
    · rw [if_neg hovf, if_neg hovf]
      rw [ceil_to_decimals_nat]
      rfl
  | some f =>
    simp only [frac_to_up_decimal, frac_to_up_scaled]
    by_cases h0 : digitsToNat ((f.dropWhile (fun c => !(c == '/'))).drop 1) = 0
    · rw [if_pos h0, if_pos h0]
      rfl
    · rw [if_neg h0, if_neg h0]
      by_cases h1 : floatOverflowBound *
          digitsToNat ((f.dropWhile (fun c => !(c == '/'))).drop 1) ≤
          digitsToNat (f.takeWhile (fun c => !(c == '/')))
      · rw [if_pos h1, if_pos h1]
        rfl
      · rw [if_neg h1, if_neg h1]
        by_cases h2 : floatOverflowBound *
            digitsToNat ((f.dropWhile (fun c => !(c == '/'))).drop 1) ≤
            (digitsToNat whole * digitsToNat ((f.dropWhile (fun c => !(c == '/'))).drop 1) +
             digitsToNat (f.takeWhile (fun c => !(c == '/')))) * 10 ^ places ∨
            floatOverflowBound ≤ 10 ^ places
        · rw [if_pos h2, if_pos h2]
          rfl
        · rw [if_neg h2, if_neg h2]
          rw [ceil_to_decimals_frac _ _ _ _ h0]
          rfl

/-- The driver's fixed-point rendering of a scaled numerator agrees with
`renderFixed` on the corresponding rational value. -/
theorem renderFixed_eq_scaled (n places : ℕ) :
    renderFixed ((n : ℚ) / 10 ^ places) places = renderScaled n places := by
  unfold renderFixed renderScaled
  have h1 : (n : ℚ) / 10 ^ places * (10 : ℚ) ^ places = (n : ℚ) := by
    field_simp
  rw [h1, Int.floor_natCast, Int.toNat_natCast]

/-- Claim C1 (counterexample): a zero-denominator fraction on one line does
not merely drop that line — the whole parse returns the uncaught
`ZeroDivisionError` and the following, perfectly valid line (which on its
own yields a record) produces nothing. -/
theorem claim_C1_counterexample :
    parse_pdf [[strL "2 10 0/0 x 20 Door", strL "1 5 x 6 Door"]] 3 (strL " | ") =
      Except.error PyExn.zeroDivisionError ∧
    processLineE (strL "1 5 x 6 Door") 1 3 (strL " | ") =
      Except.ok (some (ItemRecord.mk (strL "Door") [] 1 (strL "5.000") (strL "6.000")
        (strL "Door") 1 none)) :=
  ⟨rfl, rfl⟩

/-- Claim C1 (amended): a line whose width fraction has denominator 0 makes
the dimension normalizer raise `ZeroDivisionError`, which nothing catches:
the entire parse aborts with that error no matter what lines or pages
follow, and no records are returned. -/
theorem claim_C1_amended (rest : List Str) (pages : List (List Str))
    (places : ℕ) (joiner : Str) :
    parse_pdf ((strL "2 10 0/0 x 20 Door" :: rest) :: pages) places joiner =
      Except.error PyExn.zeroDivisionError :=
  rfl

/-- Claim C2 (supporting theorem for the code bug): in exact arithmetic the
round-up normalization of `1 + 1/10^23` at 3 places is `1001/1000`, which is
strictly greater than `1`; the source's double-precision evaluation of the
same input yields exactly `1.0` (the fraction is absorbed by float rounding,
`1.0 + 1e-23 == 1.0`), an undersized result that violates the round-up
invariant. -/
theorem claim_C2_exact_value :
    frac_to_up_decimal (strL "1") (some (strL "1/100000000000000000000000")) 3 =
      Except.ok ((1001 : ℚ) / 1000) ∧ (1 : ℚ) < (1001 : ℚ) / 1000 := by
  constructor
  · rw [frac_to_up_decimal_eq_scaled]
    have h : frac_to_up_scaled (strL "1") (some (strL "1/100000000000000000000000")) 3 =
        Except.ok 1001 := rfl
    rw [h]
    simp only [Except.map, Except.ok.injEq]
    norm_num
  · norm_num

/-- Claim C3: the line `"2 14 7/8 x 22 Door (SFP)"` with precision 3 and
joiner `" | "` yields, on any page `n`, exactly one record
`{type: Door, style: SFP, qty: 2, width: 14.875, height: 22.000, note: Door,
source_page: n}`. -/
theorem claim_C3 :
    (∀ n : ℕ, processLineE (strL "2 14 7/8 x 22 Door (SFP)") n 3 (strL " | ") =
       Except.ok (some (ItemRecord.mk (strL "Door") (strL "SFP") 2 (strL "14.875")
         (strL "22.000") (strL "Door") n none))) ∧
    parse_pdf [[strL "2 14 7/8 x 22 Door (SFP)"]] 3 (strL " | ") =
      Except.ok [ItemRecord.mk (strL "Door") (strL "SFP") 2 (strL "14.875")
        (strL "22.000") (strL "Door") 1 none] :=
  ⟨fun _ => rfl, rfl⟩

/-- Claim C5: the panel sub-kind is derived by independent keyword checks in
the stated order (the source's cascade coincides with the spec's
independent-keyword semantics); the line `"1 10 x 20 left side panel inset"`
yields the note `"Side Panel Left"` even though it does not contain the
single substring `"side panel left"`. -/
theorem claim_C5 :
    (∀ s : Str, panelSubKind s = specPanelSubKind s) ∧
    processLineE (strL "1 10 x 20 left side panel inset") 1 3 (strL " | ") =
      Except.ok (some (ItemRecord.mk (strL "Panel") (strL "Panel") 1 (strL "10.000")
        (strL "20.000") (strL "Side Panel Left") 1 none)) ∧
    pcontains (strL "side panel left") (lowerS (strL "left side panel inset")) = false := by
  refine ⟨?_, rfl, rfl⟩
  intro s
  unfold panelSubKind specPanelSubKind
  by_cases h1 : pcontains (strL "side panel") (lowerS s) = true <;>
  by_cases h2 : pcontains (strL "left") (lowerS s) = true <;>
  by_cases h3 : pcontains (strL "right") (lowerS s) = true <;>
  by_cases h4 : pcontains (strL "flat panel") (lowerS s) = true <;>
  simp [h1, h2, h3, h4]

/-- Claim C6: unit-token extraction renders the non-overlapping left-to-right
occurrences of digits-`)`-digits as `qtyx#id`, joined by the joiner (empty
when no token is found, since the join of an empty token list is empty);
`"2)9 1)12"` with joiner `" | "` gives exactly `"2x#9 | 1x#12"`. -/
theorem claim_C6 :
    unit_blob_to_note (strL "2)9 1)12") (strL " | ") = strL "2x#9 | 1x#12" ∧
    (∀ b j : Str, unit_blob_to_note b j =
      List.intercalate j ((findUnitTokens (pstrip b)).map renderUnitTok)) := by
  refine ⟨rfl, ?_⟩
  intro b j
  cases b with
  | nil => rfl
  | cons c t => rfl

/-- Claim C7: a line containing either pagination marker never produces a
record (and raises nothing), whatever else the line contains: the markers
survive the driver's strip, and the skip test runs before either grammar. -/
theorem claim_C7 (raw : Str) (p places : ℕ) (joiner : Str)
    (h : pcontains (strL "Continued to Next Page") raw = true ∨
         pcontains (strL "Continued from Last Page") raw = true) :
    processLineE raw p places joiner = Except.ok none := by
  have hcond : (pcontains (strL "Continued to Next Page") (pstrip raw) ||
                pcontains (strL "Continued from Last Page") (pstrip raw)) = true := by
    rcases h with h | h
    · have e : strL "Continued to Next Page" = 'C' :: strL "ontinued to Next Page" := rfl
      rw [e] at h
      have h2 := @pcontains_pstrip 'C' 'e' (strL "ontinued to Next Page")
        (strL "gaP txeN ot deunitnoC") raw (by decide) (by decide) (by decide) h
      rw [← e] at h2
      simp [h2]
    · have e : strL "Continued from Last Page" = 'C' :: strL "ontinued from Last Page" := rfl
      rw [e] at h
      have h2 := @pcontains_pstrip 'C' 'e' (strL "ontinued from Last Page")
        (strL "gaP tsaL morf deunitnoC") raw (by decide) (by decide) (by decide) h
      rw [← e] at h2
      simp [h2]
  simp [processLineE, hcond]

/-- Claim C7 witness: a line that matches the door grammar up front but
carries a pagination marker is skipped. -/
theorem claim_C7_witness :
    processLineE (strL "3 5 x 7 Drawer Front Continued from Last Page") 2 3 (strL " | ") =
      Except.ok none :=
  claim_C7 (strL "3 5 x 7 Drawer Front Continued from Last Page") 2 3 (strL " | ")
    (Or.inr (by decide))

/-- Claim C4: when a line matches both grammars and the driver emits a record
for it, that record comes from the structural-item grammar, tried first: its
type is Door or Drawer Front, never Panel. -/
theorem claim_C4 (l : Str) (p places : ℕ) (joiner : Str) (g : DoorG) (g' : PanelG)
    (r : ItemRecord)
    (h1 : LINE_DOOR_DR_search (pstrip l) = some g)
    (h2 : LINE_PANEL_search (pstrip l) = some g')
    (h3 : processLineE l p places joiner = Except.ok (some r)) :
    r.rtype = strL "Door" ∨ r.rtype = strL "Drawer Front" := by
  simp only [processLineE] at h3
  split at h3
  · exact absurd h3 (by simp)
  · rw [h1] at h3
    dsimp only at h3
    cases hq : pyInt g.qty with
    | none => rw [hq] at h3; exact absurd h3 (by simp)
    | some qty =>
      rw [hq] at h3
      dsimp only at h3
      cases hw : frac_to_up_scaled g.w_whole g.w_frac places with
      | error e => rw [hw] at h3; exact absurd h3 (by simp)
      | ok width =>
        rw [hw] at h3
        dsimp only at h3
        cases hh : frac_to_up_scaled g.h_whole g.h_frac places with
        | error e => rw [hh] at h3; exact absurd h3 (by simp)
        | ok height =>
          rw [hh] at h3
          simp only [Except.ok.injEq, Option.some.injEq] at h3
          subst h3
          by_cases ht : pIsPre (strL "drawer front") (lowerS g.type) = true
          · right
            simp [normalize_type, ht]
          · left
            simp [normalize_type, ht]

/-- Claim C4 witness: the line `"2 10 x 20 Door Panel"` matches both grammars
and is emitted as a Door record. -/
theorem claim_C4_witness :
    (ItemRecord.mk (strL "Door") [] 2 (strL "10.000") (strL "20.000") (strL "Door")
        1 none).rtype = strL "Door" ∨
    (ItemRecord.mk (strL "Door") [] 2 (strL "10.000") (strL "20.000") (strL "Door")
        1 none).rtype = strL "Drawer Front" :=
  claim_C4 (strL "2 10 x 20 Door Panel") 1 3 (strL " | ")
    (DoorG.mk none (strL "2") (strL "10") none (strL "20") none (strL "Door") none)
    (PanelG.mk none (strL "2") (strL "10") none (strL "20") none (strL "Door Panel"))
    (ItemRecord.mk (strL "Door") [] 2 (strL "10.000") (strL "20.000") (strL "Door") 1 none)
    rfl rfl rfl

/-- Claim C8 (counterexample): two matched lines for which no record is
emitted, refuting "for every line matching either grammar, a record is
emitted": `"1 8 x 9 3/0 Door"` matches the door grammar but the parse
raises `ZeroDivisionError`, and a door line whose width is a 310-digit
number matches too but the parse raises `OverflowError` (in the source,
`float` of the width is infinite and `math.ceil` aborts). -/
theorem claim_C8_counterexample :
    ((LINE_DOOR_DR_search (pstrip (strL "1 8 x 9 3/0 Door"))).isSome = true ∧
     processLineE (strL "1 8 x 9 3/0 Door") 1 3 (strL " | ") =
       Except.error PyExn.zeroDivisionError) ∧
    ((LINE_DOOR_DR_search
        (strL "1 " ++ List.replicate 310 '9' ++ strL " x 5 Door")).isSome = true ∧
     processLineE (strL "1 " ++ List.replicate 310 '9' ++ strL " x 5 Door") 1 3
        (strL " | ") = Except.error PyExn.overflowError) :=
  ⟨⟨rfl, rfl⟩, ⟨rfl, rfl⟩⟩

/-- Claim C8 (amended): for every line that the driver classifies by either
grammar (no pagination marker) and whose dimension normalization succeeds —
nonzero fraction denominators and magnitudes within the double range, the
success cases of `frac_to_up_scaled` — a record is emitted whose quantity
is the captured digit string parsed as a non-negative integer — in
particular a captured quantity "0" is emitted, not dropped. -/
theorem claim_C8_amended (l : Str) (p places : ℕ) (joiner : Str)
    (hm : (pcontains (strL "Continued to Next Page") (pstrip l) ||
           pcontains (strL "Continued from Last Page") (pstrip l)) = false) :
    (∀ (g : DoorG) (w h : ℕ),
       LINE_DOOR_DR_search (pstrip l) = some g →
       frac_to_up_scaled g.w_whole g.w_frac places = Except.ok w →
       frac_to_up_scaled g.h_whole g.h_frac places = Except.ok h →
       ∃ r : ItemRecord, processLineE l p places joiner = Except.ok (some r) ∧
         r.qty = (digitsToNat g.qty : ℤ) ∧ 0 ≤ r.qty) ∧
    (∀ (g : PanelG) (w h : ℕ),
       LINE_DOOR_DR_search (pstrip l) = none →
       LINE_PANEL_search (pstrip l) = some g →
       frac_to_up_scaled g.w_whole g.w_frac places = Except.ok w →
       frac_to_up_scaled g.h_whole g.h_frac places = Except.ok h →
       ∃ r : ItemRecord, processLineE l p places joiner = Except.ok (some r) ∧
         r.qty = (digitsToNat g.qty : ℤ) ∧ 0 ≤ r.qty) := by
  constructor
  · intro g w h hg hw hh
    obtain ⟨hne, hall⟩ := door_qty hg
    have hout : processLineE l p places joiner =
        Except.ok (some (ItemRecord.mk (normalize_type g.type) (style_label g.style)
          ((digitsToNat g.qty : ℤ)) (renderScaled w places) (renderScaled h places)
          (if unit_blob_to_note (g.unit_blob.getD []) joiner = [] then normalize_type g.type
           else normalize_type g.type ++ joiner ++
             unit_blob_to_note (g.unit_blob.getD []) joiner)
          p none)) := by
      simp only [processLineE, hm, Bool.false_eq_true, if_false]
      rw [hg]
      dsimp only
      rw [pyInt_digits hne hall]
      dsimp only
      rw [hw]
      dsimp only
      rw [hh]
    exact ⟨_, hout, rfl, Int.natCast_nonneg _⟩
  · intro g w h hd hg hw hh
    obtain ⟨hne, hall⟩ := panel_qty hg
    have hout : processLineE l p places joiner =
        Except.ok (some (ItemRecord.mk (strL "Panel") (strL "Panel")
          ((digitsToNat g.qty : ℤ)) (renderScaled w places) (renderScaled h places)
          (if List.intercalate joiner
               ([panelSubKind g.panel,
                 unit_blob_to_note (g.unit_blob.getD []) joiner].filter
                   (fun t => !t.isEmpty)) = [] then strL "Panel"
           else List.intercalate joiner
               ([panelSubKind g.panel,
                 unit_blob_to_note (g.unit_blob.getD []) joiner].filter
                   (fun t => !t.isEmpty)))
          p none)) := by
      simp only [processLineE, hm, Bool.false_eq_true, if_false]
      rw [hd]
      dsimp only
      rw [hg]
      dsimp only
      rw [pyInt_digits hne hall]
      dsimp only
      rw [hw]
      dsimp only
      rw [hh]
    exact ⟨_, hout, rfl, Int.natCast_nonneg _⟩

/-- Claim C8 witness: the line `"0 10 x 20 Door"` with a captured quantity of
"0" is emitted as a record with quantity 0. -/
theorem claim_C8_witness :
    ∃ r : ItemRecord,
      processLineE (strL "0 10 x 20 Door") 1 3 (strL " | ") = Except.ok (some r) ∧
      r.qty = (digitsToNat (strL "0") : ℤ) ∧ 0 ≤ r.qty :=
  (claim_C8_amended (strL "0 10 x 20 Door") 1 3 (strL " | ") rfl).1
    (DoorG.mk none (strL "0") (strL "10") none (strL "20") none (strL "Door") none)
    10000 20000 rfl rfl rfl

/-- Claim C10: on any line matched by either grammar, the integer conversion
of the captured quantity succeeds (the capture admits only decimal digits)
and yields a non-negative integer, so the unparseable-quantity failure path
is unreachable. -/
theorem claim_C10 (l : Str) :
    (∀ g : DoorG, LINE_DOOR_DR_search l = some g →
       pyInt g.qty = some ((digitsToNat g.qty : ℤ)) ∧
       (0 : ℤ) ≤ (digitsToNat g.qty : ℤ)) ∧
    (∀ g : PanelG, LINE_PANEL_search l = some g →
       pyInt g.qty = some ((digitsToNat g.qty : ℤ)) ∧
       (0 : ℤ) ≤ (digitsToNat g.qty : ℤ)) := by
  constructor
  · intro g hg
    obtain ⟨hne, hall⟩ := door_qty hg
    exact ⟨pyInt_digits hne hall, Int.natCast_nonneg _⟩
  · intro g hg
    obtain ⟨hne, hall⟩ := panel_qty hg
    exact ⟨pyInt_digits hne hall, Int.natCast_nonneg _⟩

/-- Claim C10 witness: quantity conversion succeeds on concrete matched door
and panel lines. -/
theorem claim_C10_witness :
    (pyInt (strL "2") = some ((digitsToNat (strL "2") : ℤ)) ∧
      (0 : ℤ) ≤ (digitsToNat (strL "2") : ℤ)) ∧
    (pyInt (strL "7") = some ((digitsToNat (strL "7") : ℤ)) ∧
      (0 : ℤ) ≤ (digitsToNat (strL "7") : ℤ)) :=
  ⟨(claim_C10 (strL "2 10 x 20 Door xyz")).1
      (DoorG.mk none (strL "2") (strL "10") none (strL "20") none (strL "Door") none) rfl,
   (claim_C10 (strL "7 4 x 6 Side Panel")).2
      (PanelG.mk none (strL "7") (strL "4") none (strL "6") none (strL "Side Panel")) rfl⟩

theorem digit_toLower_self {y : Char} (h : Char.isDigit y = true) : y.toLower = y := by
  simp only [Char.isDigit, Bool.and_eq_true, decide_eq_true_eq] at h
  obtain ⟨h1, h2⟩ := h
  unfold Char.toLower
  rw [if_neg]
  intro hc
  obtain ⟨h3, -⟩ := hc
  have e2 : y.val.toNat ≤ 57 := by exact_mod_cast h2
  have e3 : y.toNat = y.val.toNat := rfl
  omega

theorem toLower_not_digit {y c : Char} (h : y.toLower = c) (hc : isDigitC c = false) :
    isDigitC y = false := by
  by_cases hy : isDigitC y = true
  · rw [digit_toLower_self hy] at h
    subst h
    exact hc
  · simpa using hy

theorem isSpaceC_cases {c : Char} (h : isSpaceC c = true) :
    c = ' ' ∨ c = '\t' ∨ c = '\n' ∨ c = '\x0b' ∨ c = '\x0c' ∨ c = '\r' := by
  simp only [isSpaceC, Bool.or_eq_true, beq_iff_eq] at h
  tauto

theorem isSpaceC_ne_rparen {c : Char} (h : isSpaceC c = true) : c ≠ ')' := by
  rcases isSpaceC_cases h with rfl | rfl | rfl | rfl | rfl | rfl <;> decide

theorem dropWhile_head_false {p : Char → Bool} {l : Str} {c : Char} {cs : Str}
    (h : l.dropWhile p = c :: cs) : p c = false := by
  induction l with
  | nil => simp at h
  | cons x t ih =>
    by_cases hx : p x
    · simp only [List.dropWhile, hx] at h
      exact ih h
    · simp only [List.dropWhile, hx, Bool.false_eq_true, if_false] at h
      injection h with h1 h2
      subst h1
      simpa using hx

theorem takeWhile_all_app {p : Char → Bool} {d : Str} {c : Char} {r : Str}
    (hall : d.all p = true) (hc : p c = false) :
    (d ++ c :: r).takeWhile p = d ∧ (d ++ c :: r).dropWhile p = c :: r := by
  induction d with
  | nil => simp [List.takeWhile, List.dropWhile, hc]
  | cons x t ih =>
    simp only [List.all_cons, Bool.and_eq_true] at hall
    obtain ⟨hx, ht⟩ := hall
    obtain ⟨ih1, ih2⟩ := ih ht
    constructor
    · simpa [List.takeWhile, hx] using ih1
    · simpa [List.dropWhile, hx] using ih2

theorem takeClass1_exact {p : Char → Bool} {d : Str} {c : Char} {r : Str}
    (hne : d ≠ []) (hall : d.all p = true) (hc : p c = false) :
    takeClass1 p (d ++ c :: r) = some (d, c :: r) := by
  cases d with
  | nil => exact absurd rfl hne
  | cons x t =>
    simp only [List.all_cons, Bool.and_eq_true] at hall
    obtain ⟨hx, ht⟩ := hall
    obtain ⟨h1, h2⟩ := takeWhile_all_app (p := p) (d := t) (c := c) (r := r) ht hc
    simp only [List.cons_append, takeClass1, hx, if_pos, h1, h2]

theorem takeClass1_rest_head {p : Char → Bool} {s d : Str} {c : Char} {cs : Str}
    (h : takeClass1 p s = some (d, c :: cs)) : p c = false := by
  cases s with
  | nil => simp [takeClass1] at h
  | cons x t =>
    simp only [takeClass1] at h
    by_cases hx : p x
    · rw [if_pos hx] at h
      simp only [Option.some.injEq, Prod.mk.injEq] at h
      exact dropWhile_head_false h.2
    · rw [if_neg hx] at h
      exact absurd h (by simp)

theorem takeClass1_append {p : Char → Bool} {s d : Str} {c : Char} {r t : Str}
    (h : takeClass1 p s = some (d, c :: r)) :
    takeClass1 p (s ++ t) = some (d, c :: (r ++ t)) := by
  obtain ⟨hne, hall, hs⟩ := takeClass1_spec h
  have hc := takeClass1_rest_head h
  subst hs
  rw [List.append_assoc, List.cons_append]
  exact takeClass1_exact hne hall hc

theorem takeClass1_none_head {p : Char → Bool} {c : Char} {l : Str}
    (hc : p c = false) : takeClass1 p (c :: l) = none := by
  simp [takeClass1, hc]

theorem takeClass1_suffix {p : Char → Bool} {s d r : Str}
    (h : takeClass1 p s = some (d, r)) : r <:+ s := by
  obtain ⟨-, -, hs⟩ := takeClass1_spec h
  exact ⟨d, hs.symm⟩

theorem litE_inv {c : Char} {s r : Str} (h : litE c s = some r) : s = c :: r := by
  cases s with
  | nil => simp [litE] at h
  | cons x t =>
    simp only [litE] at h
    by_cases hx : x = c
    · rw [if_pos hx] at h
      simp only [Option.some.injEq] at h
      rw [hx, h]
    · rw [if_neg hx] at h
      exact absurd h (by simp)

theorem litE_append {c : Char} {s r t : Str} (h : litE c s = some r) :
    litE c (s ++ t) = some (r ++ t) := by
  rw [litE_inv h]
  simp [litE]

theorem litE_suffix {c : Char} {s r : Str} (h : litE c s = some r) : r <:+ s := by
  rw [litE_inv h]
  exact ⟨[c], rfl⟩

theorem litC_inv {c : Char} {s r : Str} (h : litC c s = some r) :
    ∃ y, s = y :: r ∧ y.toLower = c.toLower := by
  cases s with
  | nil => simp [litC] at h
  | cons x t =>
    simp only [litC] at h
    by_cases hx : x.toLower = c.toLower
    · rw [if_pos hx] at h
      simp only [Option.some.injEq] at h
      exact ⟨x, by rw [h], hx⟩
    · rw [if_neg hx] at h
      exact absurd h (by simp)

theorem litC_append {c : Char} {s r t : Str} (h : litC c s = some r) :
    litC c (s ++ t) = some (r ++ t) := by
  obtain ⟨y, hs, hy⟩ := litC_inv h
  subst hs
  simp [litC, hy]

theorem litC_suffix {c : Char} {s r : Str} (h : litC c s = some r) : r <:+ s := by
  obtain ⟨y, hs, -⟩ := litC_inv h
  rw [hs]
  exact ⟨[y], rfl⟩

theorem matchCI_spec {kw s txt r : Str} (h : matchCI kw s = some (txt, r)) :
    s = txt ++ r ∧ txt.length = kw.length := by
  induction kw generalizing s txt with
  | nil =>
    simp only [matchCI, Option.some.injEq, Prod.mk.injEq] at h
    obtain ⟨h1, h2⟩ := h
    subst h1
    subst h2
    exact ⟨rfl, rfl⟩
  | cons p ps ih =>
    cases s with
    | nil => simp [matchCI] at h
    | cons c cs =>
      simp only [matchCI] at h
      by_cases hc : c.toLower = p.toLower
      · rw [if_pos hc] at h
        cases h2 : matchCI ps cs with
        | none => rw [h2] at h; exact absurd h (by simp)
        | some v =>
          obtain ⟨t2, r2⟩ := v
          rw [h2] at h
          simp only [Option.some.injEq, Prod.mk.injEq] at h
          obtain ⟨h3, h4⟩ := h
          subst h3
          subst h4
          obtain ⟨ih1, ih2⟩ := ih h2
          exact ⟨by rw [ih1]; rfl, by simp [ih2]⟩
      · rw [if_neg hc] at h
        exact absurd h (by simp)

theorem matchCI_append {kw s txt r t : Str} (h : matchCI kw s = some (txt, r)) :
    matchCI kw (s ++ t) = some (txt, r ++ t) := by
  induction kw generalizing s txt with
  | nil =>
    simp only [matchCI, Option.some.injEq, Prod.mk.injEq] at h
    obtain ⟨h1, h2⟩ := h
    subst h1
    subst h2
    rfl
  | cons p ps ih =>
    cases s with
    | nil => simp [matchCI] at h
    | cons c cs =>
      rw [List.cons_append]
      simp only [matchCI] at h ⊢
      by_cases hc : c.toLower = p.toLower
      · rw [if_pos hc] at h ⊢
        cases h2 : matchCI ps cs with
        | none => rw [h2] at h; exact absurd h (by simp)
        | some v =>
          obtain ⟨t2, r2⟩ := v
          rw [h2] at h
          simp only [Option.some.injEq, Prod.mk.injEq] at h
          obtain ⟨h3, h4⟩ := h
          subst h3
          subst h4
          rw [ih h2]
      · rw [if_neg hc] at h
        exact absurd h (by simp)

theorem matchCI_none_append {kw s t : Str} (h : matchCI kw s = none)
    (hlen : kw.length ≤ s.length) : matchCI kw (s ++ t) = none := by
  induction kw generalizing s with
  | nil => simp [matchCI] at h
  | cons p ps ih =>
    cases s with
    | nil => simp at hlen
    | cons c cs =>
      rw [List.cons_append]
      simp only [matchCI] at h ⊢
      by_cases hc : c.toLower = p.toLower
      · rw [if_pos hc] at h ⊢
        cases h2 : matchCI ps cs with
        | none =>
          have h3 : matchCI ps (cs ++ t) = none := ih h2 (by simpa using hlen)
          rw [h3]
        | some v =>
          obtain ⟨t2, r2⟩ := v
          rw [h2] at h
          exact absurd h (by simp)
      · rw [if_neg hc]

theorem matchCI_first {p : Char} {ps s txt r : Str}
    (h : matchCI (p :: ps) s = some (txt, r)) :
    ∃ y rest, s = y :: rest ∧ y.toLower = p.toLower := by
  cases s with
  | nil => simp [matchCI] at h
  | cons c cs =>
    simp only [matchCI] at h
    by_cases hc : c.toLower = p.toLower
    · exact ⟨c, cs, rfl, hc⟩
    · rw [if_neg hc] at h
      exact absurd h (by simp)

theorem matchCI_suffix {kw s txt r : Str} (h : matchCI kw s = some (txt, r)) :
    r <:+ s := by
  obtain ⟨h1, -⟩ := matchCI_spec h
  exact ⟨txt, h1.symm⟩

theorem parseSpFrac_inv {s f r : Str} (h : parseSpFrac s = some (f, r)) :
    ∃ s1 r1 n r3 d, takeClass1 isSpaceC s = some (s1, r1) ∧
      takeClass1 isDigitC r1 = some (n, '/' :: r3) ∧
      takeClass1 isDigitC r3 = some (d, r) ∧ f = n ++ '/' :: d := by
  unfold parseSpFrac at h
  cases h1 : takeClass1 isSpaceC s with
  | none => rw [h1] at h; exact absurd h (by simp)
  | some v1 =>
    obtain ⟨s1, r1⟩ := v1
    rw [h1] at h
    dsimp only at h
    cases h2 : takeClass1 isDigitC r1 with
    | none => rw [h2] at h; exact absurd h (by simp)
    | some v2 =>
      obtain ⟨n, r2⟩ := v2
      rw [h2] at h
      dsimp only at h
      cases h3 : litE '/' r2 with
      | none => rw [h3] at h; exact absurd h (by simp)
      | some r3 =>
        rw [h3] at h
        dsimp only at h
        cases h4 : takeClass1 isDigitC r3 with
        | none => rw [h4] at h; exact absurd h (by simp)
        | some v4 =>
          obtain ⟨d, r4⟩ := v4
          rw [h4] at h
          simp only [Option.some.injEq, Prod.mk.injEq] at h
          obtain ⟨hf, hr⟩ := h
          subst hf
          subst hr
          have hr2 := litE_inv h3
          subst hr2
          refine ⟨s1, r1, n, r3, d, ?_, ?_, ?_, rfl⟩
          · rfl
          · exact h2
          · exact h4

theorem parseSpFrac_append {s f : Str} {c : Char} {r' t : Str}
    (h : parseSpFrac s = some (f, c :: r')) :
    parseSpFrac (s ++ t) = some (f, c :: (r' ++ t)) := by
  obtain ⟨s1, r1, n, r3, d, h1, h2, h4, hf⟩ := parseSpFrac_inv h
  subst hf
  have hr1 : ∃ c1 r1', r1 = c1 :: r1' := by
    cases r1 with
    | nil => simp [takeClass1] at h2
    | cons a b => exact ⟨a, b, rfl⟩
  obtain ⟨c1, r1', rfl⟩ := hr1
  have h1' := takeClass1_append (t := t) h1
  have h2' := takeClass1_append (t := t) h2
  have h4' := takeClass1_append (t := t) h4
  have h3' : litE '/' ('/' :: (r3 ++ t)) = some (r3 ++ t) := by simp [litE]
  simp only [List.cons_append] at h1' h2' h4'
  simp only [parseSpFrac, h1', h2', h3', h4']

theorem parseSpFrac_suffix {s f r : Str} (h : parseSpFrac s = some (f, r)) :
    r <:+ s := by
  obtain ⟨s1, r1, n, r3, d, h1, h2, h4, -⟩ := parseSpFrac_inv h
  have t1 := takeClass1_suffix h1
  have t2 := takeClass1_suffix h2
  have t4 := takeClass1_suffix h4
  have t3 : r3 <:+ ('/' :: r3) := ⟨['/'], rfl⟩
  exact (((t4.trans t3).trans t2).trans t1)

theorem parseXSep_inv {s r : Str} (h : parseXSep s = some r) :
    ∃ s1 y r2 s2, takeClass1 isSpaceC s = some (s1, y :: r2) ∧
      y.toLower = 'x' ∧ takeClass1 isSpaceC r2 = some (s2, r) := by
  unfold parseXSep at h
  cases h1 : takeClass1 isSpaceC s with
  | none => rw [h1] at h; exact absurd h (by simp)
  | some v1 =>
    obtain ⟨s1, r1⟩ := v1
    rw [h1] at h
    dsimp only at h
    cases h2 : litC 'x' r1 with
    | none => rw [h2] at h; exact absurd h (by simp)
    | some r2 =>
      rw [h2] at h
      dsimp only at h
      cases h3 : takeClass1 isSpaceC r2 with
      | none => rw [h3] at h; exact absurd h (by simp)
      | some v3 =>
        obtain ⟨s2, r3⟩ := v3
        rw [h3] at h
        simp only [Option.some.injEq] at h
        subst h
        obtain ⟨y, hr1, hy⟩ := litC_inv h2
        subst hr1
        refine ⟨s1, y, r2, s2, ?_, ?_, ?_⟩
        · rfl
        · simpa using hy
        · exact h3

theorem parseXSep_append {s : Str} {c : Char} {r' t : Str}
    (h : parseXSep s = some (c :: r')) :
    parseXSep (s ++ t) = some (c :: (r' ++ t)) := by
  obtain ⟨s1, y, r2, s2, h1, hy, h3⟩ := parseXSep_inv h
  have hr2 : ∃ c2 r2', r2 = c2 :: r2' := by
    cases r2 with
    | nil => simp [takeClass1] at h3
    | cons a b => exact ⟨a, b, rfl⟩
  obtain ⟨c2, r2', rfl⟩ := hr2
  have h1' := takeClass1_append (t := t) h1
  have h3' := takeClass1_append (t := t) h3
  have h2' : litC 'x' (y :: (c2 :: (r2' ++ t))) = some (c2 :: (r2' ++ t)) := by
    simp only [litC]
    rw [if_pos (by simpa using hy)]
  simp only [List.cons_append] at h1' h3'
  simp only [parseXSep, h1', h2', h3']

theorem parseXSep_suffix {s r : Str} (h : parseXSep s = some r) : r <:+ s := by
  obtain ⟨s1, y, r2, s2, h1, -, h3⟩ := parseXSep_inv h
  have t1 := takeClass1_suffix h1
  have t3 := takeClass1_suffix h3
  have t2 : r2 <:+ (y :: r2) := ⟨[y], rfl⟩
  exact ((t3.trans t2).trans t1)

theorem xsep_spFrac_none {s r5 t : Str} (h : parseXSep s = some r5) :
    parseSpFrac (s ++ t) = none := by
  obtain ⟨s1, y, r2, s2, h1, hy, h3⟩ := parseXSep_inv h
  have h1' := takeClass1_append (t := t) h1
  have hyd : isDigitC y = false := toLower_not_digit hy (by decide)
  have h2' : takeClass1 isDigitC (y :: (r2 ++ t)) = none := takeClass1_none_head hyd
  simp only [List.cons_append] at h1'
  simp only [parseSpFrac, h1', h2']

theorem optOr_inv {a b : Option α} {x : α} (h : optOr a b = some x) :
    a = some x ∨ (a = none ∧ b = some x) := by
  cases a with
  | none => exact Or.inr ⟨rfl, h⟩
  | some y => exact Or.inl h

theorem parseDimTail_inv {s : Str} {wf : Option Str} {r5 : Str}
    (h : parseDimTail s = some (wf, r5)) :
    (∃ f r4, parseSpFrac s = some (f, r4) ∧ parseXSep r4 = some r5 ∧ wf = some f) ∨
    (parseXSep s = some r5 ∧ wf = none) := by
  unfold parseDimTail at h
  rcases optOr_inv h with hA | ⟨hA, hB⟩
  · cases h1 : parseSpFrac s with
    | none => rw [h1] at hA; exact absurd hA (by simp)
    | some v1 =>
      obtain ⟨f, r4⟩ := v1
      rw [h1] at hA
      dsimp only at hA
      cases h2 : parseXSep r4 with
      | none => rw [h2] at hA; exact absurd hA (by simp)
      | some r5' =>
        rw [h2] at hA
        simp only [Option.some.injEq, Prod.mk.injEq] at hA
        obtain ⟨hw, hr⟩ := hA
        subst hw
        subst hr
        exact Or.inl ⟨f, r4, rfl, h2, rfl⟩
  · cases h2 : parseXSep s with
    | none => rw [h2] at hB; exact absurd hB (by simp)
    | some r5' =>
      rw [h2] at hB
      simp only [Option.some.injEq, Prod.mk.injEq] at hB
      obtain ⟨hw, hr⟩ := hB
      subst hw
      subst hr
      exact Or.inr ⟨rfl, rfl⟩

theorem parseDimTail_append {s : Str} {wf : Option Str} {c : Char} {r' t : Str}
    (h : parseDimTail s = some (wf, c :: r')) :
    parseDimTail (s ++ t) = some (wf, c :: (r' ++ t)) := by
  rcases parseDimTail_inv h with ⟨f, r4, h1, h2, hw⟩ | ⟨h2, hw⟩
  · subst hw
    have hr4 : ∃ c4 r4', r4 = c4 :: r4' := by
      obtain ⟨s1, y, r2, s2, hx1, -, -⟩ := parseXSep_inv h2
      cases r4 with
      | nil => simp [takeClass1] at hx1
      | cons a b => exact ⟨a, b, rfl⟩
    obtain ⟨c4, r4', rfl⟩ := hr4
    have h1' := parseSpFrac_append (t := t) h1
    have h2' := parseXSep_append (t := t) h2
    simp only [List.cons_append] at h1' h2'
    simp only [parseDimTail, optOr, h1', h2']
  · subst hw
    have hA' := xsep_spFrac_none (t := t) h2
    have h2' := parseXSep_append (t := t) h2
    simp only [List.cons_append] at h2'
    simp only [parseDimTail, optOr, hA', h2']

theorem parseDimTail_suffix {s : Str} {wf : Option Str} {r5 : Str}
    (h : parseDimTail s = some (wf, r5)) : r5 <:+ s := by
  rcases parseDimTail_inv h with ⟨f, r4, h1, h2, -⟩ | ⟨h2, -⟩
  · exact (parseXSep_suffix h2).trans (parseSpFrac_suffix h1)
  · exact parseXSep_suffix h2

theorem parseTypeKw_append {s ty r t : Str} (h : parseTypeKw s = some (ty, r)) :
    parseTypeKw (s ++ t) = some (ty, r ++ t) := by
  unfold parseTypeKw at h ⊢
  rcases optOr_inv h with hA | ⟨hA, hB⟩
  · rw [matchCI_append hA]
    rfl
  · have hlen : (strL "Door").length ≤ s.length := by
      obtain ⟨hs, hl⟩ := matchCI_spec hB
      rw [hs]
      simp only [List.length_append, hl]
      have e1 : (strL "Door").length = 4 := rfl
      have e2 : (strL "Drawer Front").length = 12 := rfl
      omega
    rw [matchCI_none_append hA hlen]
    rw [matchCI_append hB]
    rfl

theorem parseTypeKw_first {s ty r : Str} (h : parseTypeKw s = some (ty, r)) :
    ∃ y rest, s = y :: rest ∧ y.toLower = 'd' := by
  unfold parseTypeKw at h
  rcases optOr_inv h with hA | ⟨-, hB⟩
  · obtain ⟨y, rest, hs, hy⟩ := matchCI_first hA
    exact ⟨y, rest, hs, by rw [hy]; decide⟩
  · obtain ⟨y, rest, hs, hy⟩ := matchCI_first hB
    exact ⟨y, rest, hs, by rw [hy]; decide⟩

theorem parseTypeKw_suffix {s ty r : Str} (h : parseTypeKw s = some (ty, r)) :
    r <:+ s := by
  unfold parseTypeKw at h
  rcases optOr_inv h with hA | ⟨-, hB⟩
  · exact matchCI_suffix hA
  · exact matchCI_suffix hB

theorem sp_typeKw_spFrac_none {l s1 r1 ty r7 t : Str}
    (h1 : takeClass1 isSpaceC l = some (s1, r1))
    (h2 : parseTypeKw r1 = some (ty, r7)) :
    parseSpFrac (l ++ t) = none := by
  obtain ⟨y, rest, hr1, hy⟩ := parseTypeKw_first h2
  subst hr1
  have h1' := takeClass1_append (t := t) h1
  have hyd : isDigitC y = false := toLower_not_digit hy (by decide)
  have h2' : takeClass1 isDigitC (y :: (rest ++ t)) = none := takeClass1_none_head hyd
  simp only [List.cons_append] at h1'
  simp only [parseSpFrac, h1', h2']

theorem parseHTailDoor_inv {s : Str} {hf : Option Str} {ty r7 : Str}
    (h : parseHTailDoor s = some (hf, ty, r7)) :
    (∃ f r4 s5 r5, parseSpFrac s = some (f, r4) ∧
       takeClass1 isSpaceC r4 = some (s5, r5) ∧
       parseTypeKw r5 = some (ty, r7) ∧ hf = some f) ∨
    ((match parseSpFrac s with
      | some (f, r4) =>
        match takeClass1 isSpaceC r4 with
        | some (_, r5) =>
          match parseTypeKw r5 with
          | some (t0, r6) => some (some f, t0, r6)
          | none => none
        | none => none
      | none => none : Option (Option Str × Str × Str)) = none ∧
     ∃ s5 r5, takeClass1 isSpaceC s = some (s5, r5) ∧
       parseTypeKw r5 = some (ty, r7) ∧ hf = none) := by
  unfold parseHTailDoor at h
  rcases optOr_inv h with hA | ⟨hA, hB⟩
  · cases h1 : parseSpFrac s with
    | none => rw [h1] at hA; exact absurd hA (by simp)
    | some v1 =>
      obtain ⟨f, r4⟩ := v1
      rw [h1] at hA
      dsimp only at hA
      cases h2 : takeClass1 isSpaceC r4 with
      | none => rw [h2] at hA; exact absurd hA (by simp)
      | some v2 =>
        obtain ⟨s5, r5⟩ := v2
        rw [h2] at hA
        dsimp only at hA
        cases h3 : parseTypeKw r5 with
        | none => rw [h3] at hA; exact absurd hA (by simp)
        | some v3 =>
          obtain ⟨t0, r6⟩ := v3
          rw [h3] at hA
          simp only [Option.some.injEq, Prod.mk.injEq] at hA
          obtain ⟨ha, hb, hc⟩ := hA
          subst ha
          subst hb
          subst hc
          exact Or.inl ⟨f, r4, s5, r5, rfl, h2, h3, rfl⟩
  · cases h2 : takeClass1 isSpaceC s with
    | none => rw [h2] at hB; exact absurd hB (by simp)
    | some v2 =>
      obtain ⟨s5, r5⟩ := v2
      rw [h2] at hB
      dsimp only at hB
      cases h3 : parseTypeKw r5 with
      | none => rw [h3] at hB; exact absurd hB (by simp)
      | some v3 =>
        obtain ⟨t0, r6⟩ := v3
        rw [h3] at hB
        simp only [Option.some.injEq, Prod.mk.injEq] at hB
        obtain ⟨ha, hb, hc⟩ := hB
        subst ha
        subst hb
        subst hc
        exact Or.inr ⟨hA, s5, r5, rfl, h3, rfl⟩

theorem parseHTailDoor_append {s : Str} {hf : Option Str} {ty r7 t : Str}
    (h : parseHTailDoor s = some (hf, ty, r7)) :
    parseHTailDoor (s ++ t) = some (hf, ty, r7 ++ t) := by
  rcases parseHTailDoor_inv h with ⟨f, r4, s5, r5, h1, h2, h3, hw⟩ | ⟨-, s5, r5, h2, h3, hw⟩
  · subst hw
    have hr4 : ∃ c4 r4', r4 = c4 :: r4' := by
      cases r4 with
      | nil => simp [takeClass1] at h2
      | cons a b => exact ⟨a, b, rfl⟩
    obtain ⟨c4, r4', rfl⟩ := hr4
    have hr5 : ∃ c5 r5', r5 = c5 :: r5' := by
      obtain ⟨y, rest, hr, -⟩ := parseTypeKw_first h3
      exact ⟨y, rest, hr⟩
    obtain ⟨c5, r5', rfl⟩ := hr5
    have h1' := parseSpFrac_append (t := t) h1
    have h2' := takeClass1_append (t := t) h2
    have h3' := parseTypeKw_append (t := t) h3
    simp only [List.cons_append] at h1' h2' h3'
    simp only [parseHTailDoor, optOr, h1', h2', h3']
  · subst hw
    have hr5 : ∃ c5 r5', r5 = c5 :: r5' := by
      obtain ⟨y, rest, hr, -⟩ := parseTypeKw_first h3
      exact ⟨y, rest, hr⟩
    obtain ⟨c5, r5', rfl⟩ := hr5
    have hA' := sp_typeKw_spFrac_none (t := t) h2 h3
    have h2' := takeClass1_append (t := t) h2
    have h3' := parseTypeKw_append (t := t) h3
    simp only [List.cons_append] at h2' h3'
    simp only [parseHTailDoor, optOr, hA', h2', h3']

theorem parseHTailPanel_inv {s : Str} {hf : Option Str} {pt : Str}
    (h : parseHTailPanel s = some (hf, pt)) :
    (∃ f r4 s5, parseSpFrac s = some (f, r4) ∧
       takeClass1 isSpaceC r4 = some (s5, pt)) ∨
    (∃ s5, takeClass1 isSpaceC s = some (s5, pt)) := by
  unfold parseHTailPanel at h
  rcases optOr_inv h with hA | ⟨-, hB⟩
  · cases h1 : parseSpFrac s with
    | none => rw [h1] at hA; exact absurd hA (by simp)
    | some v1 =>
      obtain ⟨f, r4⟩ := v1
      rw [h1] at hA
      dsimp only at hA
      cases h2 : takeClass1 isSpaceC r4 with
      | none => rw [h2] at hA; exact absurd hA (by simp)
      | some v2 =>
        obtain ⟨s5, r5⟩ := v2
        rw [h2] at hA
        dsimp only at hA
        by_cases hp : panelTextOk r5 = true
        · rw [if_pos hp] at hA
          simp only [Option.some.injEq, Prod.mk.injEq] at hA
          obtain ⟨-, hb⟩ := hA
          subst hb
          exact Or.inl ⟨f, r4, s5, rfl, h2⟩
        · rw [if_neg hp] at hA
          exact absurd hA (by simp)
  · cases h2 : takeClass1 isSpaceC s with
    | none => rw [h2] at hB; exact absurd hB (by simp)
    | some v2 =>
      obtain ⟨s5, r5⟩ := v2
      rw [h2] at hB
      dsimp only at hB
      by_cases hp : panelTextOk r5 = true
      · rw [if_pos hp] at hB
        simp only [Option.some.injEq, Prod.mk.injEq] at hB
        obtain ⟨-, hb⟩ := hB
        subst hb
        exact Or.inr ⟨s5, rfl⟩
      · rw [if_neg hp] at hB
        exact absurd hB (by simp)

theorem parseHTailPanel_suffix {s : Str} {hf : Option Str} {pt : Str}
    (h : parseHTailPanel s = some (hf, pt)) : pt <:+ s := by
  rcases parseHTailPanel_inv h with ⟨f, r4, s5, h1, h2⟩ | ⟨s5, h2⟩
  · exact (takeClass1_suffix h2).trans (parseSpFrac_suffix h1)
  · exact takeClass1_suffix h2

theorem takeClass1_head {p : Char → Bool} {s d r : Str}
    (h : takeClass1 p s = some (d, r)) : ∃ c cs, s = c :: cs ∧ p c = true := by
  cases s with
  | nil => simp [takeClass1] at h
  | cons c cs =>
    refine ⟨c, cs, rfl, ?_⟩
    by_cases hc : p c
    · exact hc
    · rw [takeClass1_none_head (by simpa using hc)] at h
      exact absurd h (by simp)

theorem parseRep_inv {s tok r4 : Str} (h : parseRep s = some (tok, r4)) :
    ∃ a r2 b r3 sp, takeClass1 isDigitC s = some (a, ')' :: r2) ∧
      takeClass1 isDigitC r2 = some (b, r3) ∧
      takeClass1 isSpaceC r3 = some (sp, r4) ∧
      tok = a ++ ')' :: (b ++ sp) := by
  unfold parseRep at h
  cases h1 : takeClass1 isDigitC s with
  | none => rw [h1] at h; exact absurd h (by simp)
  | some v1 =>
    obtain ⟨a, r1⟩ := v1
    rw [h1] at h
    dsimp only at h
    cases h2 : litE ')' r1 with
    | none => rw [h2] at h; exact absurd h (by simp)
    | some r2 =>
      rw [h2] at h
      dsimp only at h
      cases h3 : takeClass1 isDigitC r2 with
      | none => rw [h3] at h; exact absurd h (by simp)
      | some v3 =>
        obtain ⟨b, r3⟩ := v3
        rw [h3] at h
        dsimp only at h
        cases h4 : takeClass1 isSpaceC r3 with
        | none => rw [h4] at h; exact absurd h (by simp)
        | some v4 =>
          obtain ⟨sp, r4'⟩ := v4
          rw [h4] at h
          simp only [Option.some.injEq, Prod.mk.injEq] at h
          obtain ⟨ht, hr⟩ := h
          subst ht
          subst hr
          have hr1 := litE_inv h2
          subst hr1
          exact ⟨a, r2, b, r3, sp, rfl, h3, h4, rfl⟩

theorem parseRep_append {s tok : Str} {c : Char} {r' t : Str}
    (h : parseRep s = some (tok, c :: r')) :
    parseRep (s ++ t) = some (tok, c :: (r' ++ t)) := by
  obtain ⟨a, r2, b, r3, sp, h1, h3, h4, ht⟩ := parseRep_inv h
  subst ht
  have hr2 : ∃ c2 r2', r2 = c2 :: r2' := by
    cases r2 with
    | nil => simp [takeClass1] at h3
    | cons x y => exact ⟨x, y, rfl⟩
  obtain ⟨c2, r2', rfl⟩ := hr2
  have hr3 : ∃ c3 r3', r3 = c3 :: r3' := by
    cases r3 with
    | nil => simp [takeClass1] at h4
    | cons x y => exact ⟨x, y, rfl⟩
  obtain ⟨c3, r3', rfl⟩ := hr3
  have h1' := takeClass1_append (t := t) h1
  have h3' := takeClass1_append (t := t) h3
  have h4' := takeClass1_append (t := t) h4
  have h2' : litE ')' (')' :: ((c2 :: r2') ++ t)) = some ((c2 :: r2') ++ t) := by
    simp [litE]
  simp only [List.cons_append] at h1' h3' h4' h2'
  simp only [parseRep, h1', h2', h3', h4']

theorem parseRep_suffix {s tok r4 : Str} (h : parseRep s = some (tok, r4)) :
    r4 <:+ s := by
  obtain ⟨a, r2, b, r3, sp, h1, h3, h4, -⟩ := parseRep_inv h
  have t1 := takeClass1_suffix h1
  have t2 : r2 <:+ (')' :: r2) := ⟨[')'], rfl⟩
  have t3 := takeClass1_suffix h3
  have t4 := takeClass1_suffix h4
  exact ((t4.trans t3).trans (t2.trans t1))

theorem parseRepsF_suffix (f : ℕ) (s : Str) : (parseRepsF f s).2 <:+ s := by
  induction f generalizing s with
  | zero => exact List.suffix_rfl
  | succ fk ih =>
    simp only [parseRepsF]
    cases hrep : parseRep s with
    | none => exact List.suffix_rfl
    | some v =>
      obtain ⟨tok, r⟩ := v
      dsimp only
      exact (ih r).trans (parseRep_suffix hrep)

theorem parseReps_suffix (s : Str) : (parseReps s).2 <:+ s :=
  parseRepsF_suffix s.length s

theorem parseRepsF_append {t : Str} :
    ∀ (fk : ℕ) {l b r0 q r1 s1 rx : Str} (f' : ℕ),
      l.length ≤ fk → parseRepsF fk l = (b, r0) →
      takeClass1 isDigitC r0 = some (q, r1) →
      takeClass1 isSpaceC r1 = some (s1, rx) →
      (l ++ t).length ≤ f' →
      parseRepsF f' (l ++ t) = (b, r0 ++ t) := by
  intro fk
  induction fk with
  | zero =>
    intro l b r0 q r1 s1 rx f' hlen hF hq hsp hlen'
    have hl : l = [] := by
      cases l with
      | nil => rfl
      | cons x y => simp at hlen
    subst hl
    simp only [parseRepsF, Prod.mk.injEq] at hF
    obtain ⟨-, hr0⟩ := hF
    rw [← hr0] at hq
    simp [takeClass1] at hq
  | succ fk ih =>
    intro l b r0 q r1 s1 rx f' hlen hF hq hsp hlen'
    simp only [parseRepsF] at hF
    cases hrep : parseRep l with
    | none =>
      rw [hrep] at hF
      simp only [Prod.mk.injEq] at hF
      obtain ⟨hb, hr0⟩ := hF
      subst hb
      subst hr0
      obtain ⟨cs1, rest1, hr1eq, hcs1⟩ := takeClass1_head hsp
      subst hr1eq
      have hq' := takeClass1_append (t := t) hq
      have hlit : litE ')' (cs1 :: (rest1 ++ t)) = none := by
        simp [litE, isSpaceC_ne_rparen hcs1]
      have hrep' : parseRep (l ++ t) = none := by
        simp only [List.cons_append] at hq'
        simp only [parseRep, hq', hlit]
      cases f' with
      | zero =>
        obtain ⟨c0, cs0, hleq, -⟩ := takeClass1_head hq
        subst hleq
        simp at hlen'
      | succ fk' =>
        simp only [parseRepsF, hrep']
    | some v =>
      obtain ⟨tok, r'⟩ := v
      rw [hrep] at hF
      dsimp only at hF
      rcases hp : parseRepsF fk r' with ⟨b2, r02⟩
      rw [hp] at hF
      simp only [Prod.mk.injEq] at hF
      obtain ⟨hb, hr0⟩ := hF
      subst hb
      subst hr0
      have hlenr : r'.length ≤ fk := by
        have := parseRep_length hrep
        omega
      have hr0ne : r02 ≠ [] := by
        obtain ⟨c0, cs0, he, -⟩ := takeClass1_head hq
        rw [he]
        simp
      have hsub : r02 <:+ r' := by
        have h5 := parseRepsF_suffix fk r'
        rw [hp] at h5
        exact h5
      have hr'ne : r' ≠ [] := by
        intro hcon
        subst hcon
        obtain ⟨u, hu⟩ := hsub
        obtain ⟨-, h2⟩ := List.append_eq_nil.mp hu
        exact hr0ne h2
      obtain ⟨c', r'', rfl⟩ : ∃ c' r'', r' = c' :: r'' := by
        cases r' with
        | nil => exact absurd rfl hr'ne
        | cons x y => exact ⟨x, y, rfl⟩
      have hrep' := parseRep_append (t := t) hrep
      cases f' with
      | zero =>
        have := parseRep_length hrep
        simp only [List.length_append, Nat.le_zero] at hlen'
        simp only [List.length_cons] at this
        omega
      | succ fk' =>
        have hlenr' : ((c' :: r'') ++ t).length ≤ fk' := by
          have h6 := parseRep_length hrep
          simp only [List.length_append, List.length_cons] at hlen' h6 ⊢
          omega
        have IH := ih fk' hlenr hp hq hsp hlenr'
        simp only [List.cons_append] at hrep' IH
        simp only [parseRepsF, hrep', IH]

theorem parseReps_append {t l b r0 q r1 s1 rx : Str}
    (hF : parseReps l = (b, r0))
    (hq : takeClass1 isDigitC r0 = some (q, r1))
    (hsp : takeClass1 isSpaceC r1 = some (s1, rx)) :
    parseReps (l ++ t) = (b, r0 ++ t) :=
  parseRepsF_append l.length (l ++ t).length (Nat.le_refl _) hF hq hsp (Nat.le_refl _)

theorem parseCommon_inv {s : Str} {g : CommonG} {r6 : Str}
    (h : parseCommon s = some (g, r6)) :
    ∃ b r0 q r1 s2 r2 w r3 wf r5 hw,
      parseReps s = (b, r0) ∧
      takeClass1 isDigitC r0 = some (q, r1) ∧
      takeClass1 isSpaceC r1 = some (s2, r2) ∧
      takeClass1 isDigitC r2 = some (w, r3) ∧
      parseDimTail r3 = some (wf, r5) ∧
      takeClass1 isDigitC r5 = some (hw, r6) ∧
      g = ⟨if b = [] then none else some b, q, w, wf, hw⟩ := by
  unfold parseCommon at h
  rcases hps : parseReps s with ⟨b, r0⟩
  rw [hps] at h
  dsimp only at h
  cases h1 : takeClass1 isDigitC r0 with
  | none => rw [h1] at h; exact absurd h (by simp)
  | some v1 =>
    obtain ⟨q, r1⟩ := v1
    rw [h1] at h
    dsimp only at h
    cases h2 : takeClass1 isSpaceC r1 with
    | none => rw [h2] at h; exact absurd h (by simp)
    | some v2 =>
      obtain ⟨s2, r2⟩ := v2
      rw [h2] at h
      dsimp only at h
      cases h3 : takeClass1 isDigitC r2 with
      | none => rw [h3] at h; exact absurd h (by simp)
      | some v3 =>
        obtain ⟨w, r3⟩ := v3
        rw [h3] at h
        dsimp only at h
        cases h4 : parseDimTail r3 with
        | none => rw [h4] at h; exact absurd h (by simp)
        | some v4 =>
          obtain ⟨wf, r5⟩ := v4
          rw [h4] at h
          dsimp only at h
          cases h5 : takeClass1 isDigitC r5 with
          | none => rw [h5] at h; exact absurd h (by simp)
          | some v5 =>
            obtain ⟨hw, r6'⟩ := v5
            rw [h5] at h
            simp only [Option.some.injEq, Prod.mk.injEq] at h
            obtain ⟨hg, hr⟩ := h
            subst hg
            subst hr
            exact ⟨b, r0, q, r1, s2, r2, w, r3, wf, r5, hw,
              rfl, h1, h2, h3, h4, h5, rfl⟩

theorem parseDimTail_head {s : Str} {wf : Option Str} {r5 : Str}
    (h : parseDimTail s = some (wf, r5)) : ∃ c cs, s = c :: cs := by
  rcases parseDimTail_inv h with ⟨f, r4, h1, -, -⟩ | ⟨h2, -⟩
  · obtain ⟨s1, r1, n, r3, d, hx, -, -, -⟩ := parseSpFrac_inv h1
    obtain ⟨c, cs, he, -⟩ := takeClass1_head hx
    exact ⟨c, cs, he⟩
  · obtain ⟨s1, y, r2, s2, hx, -, -⟩ := parseXSep_inv h2
    obtain ⟨c, cs, he, -⟩ := takeClass1_head hx
    exact ⟨c, cs, he⟩

theorem parseCommon_append {s : Str} {g : CommonG} {c : Char} {r6' t : Str}
    (h : parseCommon s = some (g, c :: r6')) :
    parseCommon (s ++ t) = some (g, c :: (r6' ++ t)) := by
  obtain ⟨b, r0, q, r1, s2, r2, w, r3, wf, r5, hw,
    hps, h1, h2, h3, h4, h5, hg⟩ := parseCommon_inv h
  subst hg
  have hps' := parseReps_append (t := t) hps h1 h2
  obtain ⟨c1, r1x, hr1, -⟩ := takeClass1_head h2
  subst hr1
  obtain ⟨c2, r2x, hr2, -⟩ := takeClass1_head h3
  subst hr2
  obtain ⟨c3, r3x, hr3⟩ := parseDimTail_head h4
  subst hr3
  obtain ⟨c5, r5x, hr5, -⟩ := takeClass1_head h5
  subst hr5
  have h1' := takeClass1_append (t := t) h1
  have h2' := takeClass1_append (t := t) h2
  have h3' := takeClass1_append (t := t) h3
  have h4' := parseDimTail_append (t := t) h4
  have h5' := takeClass1_append (t := t) h5
  simp only [List.cons_append] at h1' h2' h3' h4' h5'
  simp only [parseCommon, hps', h1', h2', h3', h4', h5']

theorem parseCommon_suffix {s : Str} {g : CommonG} {r6 : Str}
    (h : parseCommon s = some (g, r6)) : r6 <:+ s := by
  obtain ⟨b, r0, q, r1, s2, r2, w, r3, wf, r5, hw,
    hps, h1, h2, h3, h4, h5, -⟩ := parseCommon_inv h
  have t0 : r0 <:+ s := by
    have := parseReps_suffix s
    rw [hps] at this
    exact this
  have t1 := takeClass1_suffix h1
  have t2 := takeClass1_suffix h2
  have t3 := takeClass1_suffix h3
  have t4 := parseDimTail_suffix h4
  have t5 := takeClass1_suffix h5
  exact ((((t5.trans t4).trans t3).trans t2).trans t1).trans t0

theorem door_search_inv {s : Str} {g : DoorG}
    (h : LINE_DOOR_DR_search s = some g) :
    ∃ c r6 hf ty r7, parseCommon s = some (c, r6) ∧
      parseHTailDoor r6 = some (hf, ty, r7) := by
  unfold LINE_DOOR_DR_search at h
  cases h1 : parseCommon s with
  | none => rw [h1] at h; exact absurd h (by simp)
  | some v1 =>
    obtain ⟨c, r6⟩ := v1
    rw [h1] at h
    dsimp only at h
    cases h2 : parseHTailDoor r6 with
    | none => rw [h2] at h; exact absurd h (by simp)
    | some v2 =>
      obtain ⟨hf, ty, r7⟩ := v2
      exact ⟨c, r6, hf, ty, r7, rfl, h2⟩

theorem parseHTailDoor_head {s : Str} {hf : Option Str} {ty r7 : Str}
    (h : parseHTailDoor s = some (hf, ty, r7)) : ∃ c cs, s = c :: cs := by
  rcases parseHTailDoor_inv h with ⟨f, r4, s5, r5, h1, -, -, -⟩ | ⟨-, s5, r5, h2, -, -⟩
  · obtain ⟨s1, r1, n, r3, d, hx, -, -, -⟩ := parseSpFrac_inv h1
    obtain ⟨c, cs, he, -⟩ := takeClass1_head hx
    exact ⟨c, cs, he⟩
  · obtain ⟨c, cs, he, -⟩ := takeClass1_head h2
    exact ⟨c, cs, he⟩

theorem door_search_append {s t : Str} (h : (LINE_DOOR_DR_search s).isSome = true) :
    (LINE_DOOR_DR_search (s ++ t)).isSome = true := by
  obtain ⟨g, hg⟩ := Option.isSome_iff_exists.mp h
  obtain ⟨c, r6, hf, ty, r7, h1, h2⟩ := door_search_inv hg
  obtain ⟨c6, r6x, hr6⟩ := parseHTailDoor_head h2
  subst hr6
  have h1' := parseCommon_append (t := t) h1
  have h2' := parseHTailDoor_append (t := t) h2
  simp only [List.cons_append] at h1' h2'
  simp only [LINE_DOOR_DR_search, h1', h2', Option.isSome_some]

theorem panel_search_panel_suffix {s : Str} {g : PanelG}
    (h : LINE_PANEL_search s = some g) : g.panel <:+ s := by
  unfold LINE_PANEL_search at h
  cases h1 : parseCommon s with
  | none => rw [h1] at h; exact absurd h (by simp)
  | some v1 =>
    obtain ⟨c, r6⟩ := v1
    rw [h1] at h
    dsimp only at h
    cases h2 : parseHTailPanel r6 with
    | none => rw [h2] at h; exact absurd h (by simp)
    | some v2 =>
      obtain ⟨hf, pt⟩ := v2
      rw [h2] at h
      simp only [Option.some.injEq] at h
      subst h
      exact (parseHTailPanel_suffix h2).trans (parseCommon_suffix h1)

/-- Claim C9 (counterexample): the leading portion `"2 10 x 20 Door"` matches
the structural-item grammar, yet the extended line does not produce a record
— the appended trailing text contains a pagination marker, and the skip test
runs before any grammar. -/
theorem claim_C9_counterexample :
    (LINE_DOOR_DR_search (strL "2 10 x 20 Door")).isSome = true ∧
    processLineE (strL "2 10 x 20 Door Continued to Next Page") 1 3 (strL " | ") =
      Except.ok none :=
  ⟨rfl, rfl⟩

/-- Claim C9 (amended): the structural-item pattern is anchored only at the
start of the line — whenever it matches a line it still matches after any
text is appended (and such a line is emitted as a door/drawer record
provided it is not skipped as a pagination marker and its dimensions
normalize, as on the concrete trailing-junk line below) — whereas the panel
pattern is anchored at both ends: its panel capture always extends to the
end of the line (it is a suffix of the line). -/
theorem claim_C9_amended :
    (∀ l t : Str, (LINE_DOOR_DR_search l).isSome = true →
       (LINE_DOOR_DR_search (l ++ t)).isSome = true) ∧
    (∀ (l : Str) (g : PanelG), LINE_PANEL_search l = some g → g.panel <:+ l) ∧
    processLineE (strL "2 10 x 20 Door (SFP) trailing junk") 1 3 (strL " | ") =
      Except.ok (some (ItemRecord.mk (strL "Door") (strL "SFP") 2 (strL "10.000")
        (strL "20.000") (strL "Door") 1 none)) := by
  refine ⟨?_, ?_, rfl⟩
  · intro l t h
    exact door_search_append h
  · intro l g h
    exact panel_search_panel_suffix h

/-- Claim C9 witness: the door grammar still matches after appending
arbitrary garbage, and a concrete panel capture is a suffix of its line. -/
theorem claim_C9_witness :
    (LINE_DOOR_DR_search (strL "3 7 x 9 door" ++ strL " extra ) garbage 12 x")).isSome
      = true ∧
    (PanelG.mk none (strL "1") (strL "2") none (strL "3") none
      (strL "Flat Panel")).panel <:+ strL "1 2 x 3 Flat Panel" :=
  ⟨claim_C9_amended.1 (strL "3 7 x 9 door") (strL " extra ) garbage 12 x") rfl,
   claim_C9_amended.2.1 (strL "1 2 x 3 Flat Panel")
     (PanelG.mk none (strL "1") (strL "2") none (strL "3") none (strL "Flat Panel")) rfl⟩
